import Mathlib

/-!
Verification development for the pomodoro-task-manager repository.

The Python sources (models.py, storage.py, main.py, gemini_client.py) are
shallowly embedded below: pure fragments become Lean functions, the mutable
store becomes explicit state passing, Python exceptions become Except, and
interactive prompts become explicit input parameters.  Wall-clock reads
(datetime.now / fromisoformat arithmetic) are abstracted as oracle
parameters; no proved property depends on their values.
-/

namespace Pomodoro

/-! ## Python string primitives

Models of the CPython string operations used by the repository, defined on
the character list of a string (ASCII behaviour, which is the only range the
program's tokens use).
-/

/-- Model of Python str.split(sep) for a single-character separator:
splitting the empty string yields [''], separators delimit (possibly empty)
segments. -/
def splitChars (sep : Char) : List Char → List (List Char)
  | [] => [[]]
  | c :: rest =>
    match splitChars sep rest with
    | [] => [[]]
    | g :: gs => if c = sep then [] :: g :: gs else (c :: g) :: gs

/-- Python s.split(sep) on strings. -/
def pySplit (sep : Char) (s : String) : List String :=
  (splitChars sep s.data).map String.mk

/-- Python s.strip(): drop whitespace from both ends. -/
def pyStrip (s : String) : String :=
  String.mk (((s.data.dropWhile Char.isWhitespace).reverse.dropWhile Char.isWhitespace).reverse)

/-- Python s.isdigit() (ASCII digits, the only ones the tool's tokens use):
nonempty and all characters decimal digits. -/
def pyIsDigit (s : String) : Bool :=
  !s.data.isEmpty && s.data.all Char.isDigit

/-- Python s.startswith(pre). -/
def pyStartsWith (s pre : String) : Bool :=
  pre.data.isPrefixOf s.data

/-- Python ('x' in s) substring membership for a single character. -/
def pyContainsChar (s : String) (c : Char) : Bool :=
  s.data.contains c

/-- Python s.lower() (ASCII). -/
def pyLower (s : String) : String :=
  String.mk (s.data.map Char.toLower)

/-- Python (sub in s) substring containment. -/
def pySubstr (sub s : String) : Bool :=
  decide (sub.data <:+: s.data)

/-- The decimal digit character for d < 10. -/
def digitChar (d : Nat) : Char := Char.ofNat (48 + d)

/-- Decimal character list of a natural number (model of Python str(n) for
one of the nonnegative integers the session index uses). -/
def pyChars (n : Nat) : List Char :=
  if n = 0 then ['0'] else ((Nat.digits 10 n).reverse).map digitChar

/-- Python str(n) for a natural number. -/
def pyStr (n : Nat) : String := String.mk (pyChars n)

/-- Python int(s) restricted to all-digit tokens (the only shape reaching it
in parse_task_refs, whose guard has already checked every character is a
digit); int('') raises ValueError, modelled as none. -/
def parseDigits (l : List Char) : Option Nat :=
  if l.isEmpty || !(l.all Char.isDigit) then none
  else some (l.foldl (fun a c => 10 * a + (c.toNat - 48)) 0)

/-! ## Data model (models.py)

TaskStatus, Project, Task as declared by the dataclasses.  models.Task
declares NO deadline field, while main.py reads and writes t.deadline as a
dynamic attribute; the field `deadline : Option (Option String)` below
models that dynamic attribute: `none` means the attribute is absent (so an
attribute read raises AttributeError), `some d` means a prior assignment
set it to d (d = none being Python None).  asdict serializes only declared
fields, so to_dict below ignores `deadline`, and from_dict rejects a
"deadline" key (TypeError: unexpected keyword argument).
-/

inductive TaskStatus where
  | todo
  | in_progress
  | done
  | archived
deriving DecidableEq, Repr

/-- String value of a TaskStatus (the enum's value). -/
def TaskStatus.value : TaskStatus → String
  | .todo => "todo"
  | .in_progress => "in_progress"
  | .done => "done"
  | .archived => "archived"

/-- Python TaskStatus(s): look an enum member up by value, ValueError if
absent. -/
def TaskStatus.ofValue (s : String) : Option TaskStatus :=
  if s = "todo" then some .todo
  else if s = "in_progress" then some .in_progress
  else if s = "done" then some .done
  else if s = "archived" then some .archived
  else none

structure Project where
  name : String
  description : String
  id : String
  created_at : String
deriving DecidableEq, Repr

structure Task where
  title : String
  description : String
  estimated_tomatoes : Int
  completed_tomatoes : Int
  status : TaskStatus
  project_id : Option String
  id : String
  created_at : String
  completed_at : Option String
  /-- Dynamic attribute, not a declared dataclass field: absent (`none`)
  until some code path assigns t.deadline. -/
  deadline : Option (Option String)
deriving DecidableEq, Repr

/-- Reading t.deadline: AttributeError (modelled as Except.error) when the
attribute was never assigned. -/
def Task.getDeadline (t : Task) : Except Unit (Option String) :=
  match t.deadline with
  | some d => .ok d
  | none => .error ()

/-- Task construction as in gemini_client.process_brain_dump: only title,
description, estimated_tomatoes and project_id are passed; the remaining
declared fields take their dataclass defaults, and the undeclared deadline
attribute is absent. -/
def mkGeminiTask (title description : String) (est : Int) (pid : Option String)
    (freshId freshCreated : String) : Task :=
  { title := title
    description := description
    estimated_tomatoes := est
    completed_tomatoes := 0
    status := .todo
    project_id := pid
    id := freshId
    created_at := freshCreated
    completed_at := none
    deadline := none }

/-! ## Serialization (models.py to_dict / from_dict, storage.py)

A small JSON value type; json.loads output is modelled as a parsed value
(objects carry unique keys by construction of the parser, looked up
first-match).  The state of the data file is: absent, present but not valid
JSON (json.JSONDecodeError), or present and parsing to a value.
-/

inductive Json where
  | null
  | bool (b : Bool)
  | num (n : Int)
  | str (s : String)
  | arr (xs : List Json)
  | obj (fields : List (String × Json))

/-- Python data.get(key, dflt): AttributeError (error) when the receiver is
not a dict. -/
def jsonGet (j : Json) (key : String) (dflt : Json) : Except Unit Json :=
  match j with
  | .obj fs =>
    match fs.find? (fun kv => kv.1 = key) with
    | some kv => .ok kv.2
    | none => .ok dflt
  | _ => .error ()

/-- Iterating a JSON value as a Python list; every non-list shape that
storage.load_data would iterate raises (TypeError et al.) before producing
records, modelled as error. -/
def jsonAsArr (j : Json) : Except Unit (List Json) :=
  match j with
  | .arr xs => .ok xs
  | _ => .error ()

/-- Field lookup inside a parsed JSON object. -/
def objField (fs : List (String × Json)) (key : String) : Option Json :=
  (fs.find? (fun kv => kv.1 = key)).map (fun kv => kv.2)

/-- Json decoders for the individual field shapes that the dataclasses
store.  Python dataclasses do not type-check assigned values; every record
the program itself writes is well-typed, and no claim below concerns a
record with a wrongly-typed field, so decoding is typed. -/
def jsonAsStr : Json → Except Unit String
  | .str s => .ok s
  | _ => .error ()

def jsonAsOptStr : Json → Except Unit (Option String)
  | .str s => .ok (some s)
  | .null => .ok none
  | _ => .error ()

def jsonAsInt : Json → Except Unit Int
  | .num n => .ok n
  | _ => .error ()

def optStrJson : Option String → Json
  | some s => .str s
  | none => .null

/-- models.Task.to_dict: asdict over the DECLARED fields (status flattened
to its value).  The dynamic deadline attribute is not a declared field, so
it is silently dropped here even when present. -/
def task_to_dict (t : Task) : Json :=
  .obj
    [ ("title", .str t.title)
    , ("description", .str t.description)
    , ("estimated_tomatoes", .num t.estimated_tomatoes)
    , ("completed_tomatoes", .num t.completed_tomatoes)
    , ("status", .str t.status.value)
    , ("project_id", optStrJson t.project_id)
    , ("id", .str t.id)
    , ("created_at", .str t.created_at)
    , ("completed_at", optStrJson t.completed_at)
    ]

/-- The declared field names of models.Task. -/
def taskFieldNames : List String :=
  [ "title", "description", "estimated_tomatoes", "completed_tomatoes"
  , "status", "project_id", "id", "created_at", "completed_at" ]

/-- models.Task.from_dict: TaskStatus(data['status']) raises ValueError on
an unknown value; cls(**data) raises TypeError on any key that is not a
declared field — in particular on a "deadline" key — and on a missing
required title.  Records the program writes always carry id / created_at,
whose dataclass defaults are fresh uuid4() / now() values; the
nondeterministic defaults are not modelled and both keys are read as
present, which is the only shape any property below touches. -/
def task_from_dict (j : Json) : Except Unit Task :=
  match j with
  | .obj fs => do
    if !(fs.all (fun kv => taskFieldNames.contains kv.1)) then .error () else
    let title ← match objField fs "title" with
      | some v => jsonAsStr v
      | none => .error ()
    let description ← match objField fs "description" with
      | some v => jsonAsStr v
      | none => .ok ""
    let est ← match objField fs "estimated_tomatoes" with
      | some v => jsonAsInt v
      | none => .ok 1
    let comp ← match objField fs "completed_tomatoes" with
      | some v => jsonAsInt v
      | none => .ok 0
    let status ← match objField fs "status" with
      | some v => do
        let s ← jsonAsStr v
        match TaskStatus.ofValue s with
        | some st => .ok st
        | none => .error ()
      | none => .ok .todo
    let pid ← match objField fs "project_id" with
      | some v => jsonAsOptStr v
      | none => .ok none
    let id ← match objField fs "id" with
      | some v => jsonAsStr v
      | none => .error ()
    let created ← match objField fs "created_at" with
      | some v => jsonAsStr v
      | none => .error ()
    let completed ← match objField fs "completed_at" with
      | some v => jsonAsOptStr v
      | none => .ok none
    .ok { title := title, description := description
          estimated_tomatoes := est, completed_tomatoes := comp
          status := status, project_id := pid, id := id
          created_at := created, completed_at := completed
          deadline := none }
  | _ => .error ()

/-- models.Project.to_dict. -/
def project_to_dict (p : Project) : Json :=
  .obj
    [ ("name", .str p.name)
    , ("description", .str p.description)
    , ("id", .str p.id)
    , ("created_at", .str p.created_at)
    ]

def projectFieldNames : List String := ["name", "description", "id", "created_at"]

/-- models.Project.from_dict (same conventions as task_from_dict). -/
def project_from_dict (j : Json) : Except Unit Project :=
  match j with
  | .obj fs => do
    if !(fs.all (fun kv => projectFieldNames.contains kv.1)) then .error () else
    let name ← match objField fs "name" with
      | some v => jsonAsStr v
      | none => .error ()
    let description ← match objField fs "description" with
      | some v => jsonAsStr v
      | none => .ok ""
    let id ← match objField fs "id" with
      | some v => jsonAsStr v
      | none => .error ()
    let created ← match objField fs "created_at" with
      | some v => jsonAsStr v
      | none => .error ()
    .ok { name := name, description := description, id := id, created_at := created }
  | _ => .error ()

/-- State of one on-disk JSON file. -/
inductive FileContent where
  | absent
  | unparseable
  | parsed (j : Json)

/-- storage._load_json: missing file or json.JSONDecodeError yield the empty
collections object; any successfully parsed value is returned as-is. -/
def load_json_file : FileContent → Json
  | .absent => .obj [("tasks", .arr []), ("projects", .arr [])]
  | .unparseable => .obj [("tasks", .arr []), ("projects", .arr [])]
  | .parsed j => j

/-- storage.load_data on a file state: data.get then from_dict over each
entry; only JSONDecodeError was caught, so every later failure (non-dict
top level, non-list collections, malformed records) propagates. -/
def load_data (f : FileContent) : Except Unit (List Task × List Project) := do
  let data := load_json_file f
  let tjs ← jsonGet data "tasks" (.arr [])
  let tlist ← jsonAsArr tjs
  let tasks ← tlist.mapM task_from_dict
  let pjs ← jsonGet data "projects" (.arr [])
  let plist ← jsonAsArr pjs
  let projects ← plist.mapM project_from_dict
  .ok (tasks, projects)

/-- storage.save_data, seen at the file level. -/
def save_data_file (tasks : List Task) (projects : List Project) : FileContent :=
  .parsed (.obj
    [ ("tasks", .arr (tasks.map task_to_dict))
    , ("projects", .arr (projects.map project_to_dict)) ])

/-! ## Store-level state

For the commands (archive, review session) the persisted state is handled
at the level of the already-parsed collections: storage.load_data /
save_data become reads and writes of a Store value, and the two files
(tasks.json, archive.json) form the file system state. -/

structure Store where
  tasks : List Task
  projects : List Project
deriving DecidableEq, Repr

structure FileSys where
  active : Store
  archive : Store
deriving DecidableEq, Repr

/-- storage.append_to_archive: read-modify-write of the archive file only;
the given tasks are appended to the archived task list and the archived
projects are written back unchanged. -/
def append_to_archive (fs : FileSys) (tasks_to_archive : List Task) : FileSys :=
  { fs with archive := { tasks := fs.archive.tasks ++ tasks_to_archive
                         projects := fs.archive.projects } }

/-! ## Reference Resolver (main.py TASK_INDEX_MAP, parse_task_refs, start)

TASK_INDEX_MAP is process-global in the source; it is passed explicitly
here (the spec itself prescribes that reimplementation).  The listing loop
assigns TASK_INDEX_MAP[str(current_index)] = t.id for current_index = 1..N
over the displayed tasks, so the map is an association list keyed by the
decimal strings "1".."N". -/

abbrev IndexMap := List (String × String)

def lookupIdx (m : IndexMap) (key : String) : Option String :=
  (m.find? (fun kv => kv.1 = key)).map (fun kv => kv.2)

/-- The session index built by one listing, in display order, starting at
index k. -/
def buildIndexFrom (k : Nat) : List String → IndexMap
  | [] => []
  | id :: rest => (pyStr k, id) :: buildIndexFrom (k + 1) rest

/-- TASK_INDEX_MAP after a listing displayed the given tasks in order
(main.py lines 167-208). -/
def registerListing (displayed : List Task) : IndexMap :=
  buildIndexFrom 1 (displayed.map (fun t => t.id))

/-- Single-reference resolution as in the start command (main.py lines
222-230): a purely numeric token present in the session index resolves
through it, otherwise the token is an id-prefix matched against the first
task in store order. -/
def resolve_one (task_ref : String) (tasks : List Task) (m : IndexMap) : Option String :=
  if pyIsDigit task_ref && (lookupIdx m task_ref).isSome then
    lookupIdx m task_ref
  else
    (tasks.find? (fun t => pyStartsWith t.id task_ref)).map (fun t => t.id)

/-- Accumulated output of parse_task_refs: collected ids and the tokens
reported with a not-found warning. -/
structure ParseOut where
  ids : List String
  warns : List String
deriving DecidableEq, Repr

/-- The non-separator predicate of ref.replace('-', ''). -/
def nonDash (c : Char) : Bool := !(c = '-')

/-- The dash-range guard of parse_task_refs:
('-' in ref and ref.replace('-', '').isdigit()). -/
def dashGuard (ref : String) : Bool :=
  pyContainsChar ref '-' && (!(ref.data.filter nonDash).isEmpty
    && (ref.data.filter nonDash).all Char.isDigit)

/-- One iteration of the parse_task_refs loop (main.py lines 28-48).
The range branch does start, end = map(int, ref.split('-')): a split into
anything but exactly two parts raises ValueError (unpacking), as does
int('') on an empty part; neither is caught anywhere, so the error aborts
the whole resolution.  Range indices absent from the session index are
silently skipped.  A non-range non-index token is an id-prefix: the first
matching task's id is taken, and a token matching nothing is recorded as a
warning and skipped. -/
def processRef (tasks : List Task) (m : IndexMap) (acc : ParseOut) (ref : String) :
    Except Unit ParseOut :=
  if dashGuard ref then
    match splitChars '-' ref.data with
    | [a, b] =>
      match parseDigits a, parseDigits b with
      | some s, some e =>
        .ok { acc with ids :=
          acc.ids ++ (List.range' s (e + 1 - s)).filterMap (fun i => lookupIdx m (pyStr i)) }
      | _, _ => .error ()
    | _ => .error ()
  else if pyIsDigit ref && (lookupIdx m ref).isSome then
    .ok { acc with ids := acc.ids ++ (lookupIdx m ref).toList }
  else
    match tasks.find? (fun t => pyStartsWith t.id ref) with
    | some t => .ok { acc with ids := acc.ids ++ [t.id] }
    | none => .ok { acc with warns := acc.warns ++ [ref] }

/-- main.parse_task_refs: split on commas, strip each token, process each in
order, and return list(set(...)) of the collected ids.  CPython set
iteration order is unspecified; first-occurrence deduplication is taken as
its model, and every property proved below is order-insensitive. -/
def parse_task_refs (task_ref_str : String) (tasks : List Task) (m : IndexMap) :
    Except Unit ParseOut :=
  match ((pySplit ',' task_ref_str).map pyStrip).foldlM (processRef tasks m) ⟨[], []⟩ with
  | .ok out => .ok { out with ids := out.ids.dedup }
  | .error e => .error e

/-! ## Merge Engine (main.ingest_logic lines 820-842) -/

/-- The dict {p.name: p for p in existing_projects}: later entries
overwrite earlier ones. -/
def buildNameMap (ps : List Project) : String → Option Project :=
  ps.foldl (fun mp p => fun n => if n = p.name then some p else mp n) (fun _ => none)

/-- Functional update of a string-keyed dict. -/
def updMap {V : Type} (mp : String → Option V) (k : String) (v : V) : String → Option V :=
  fun n => if n = k then some v else mp n

structure MergeAcc where
  nameMap : String → Option Project
  finalProjects : List Project
  idMap : String → Option String

/-- One iteration of the project-merge loop: a batch project whose name is
already known maps its id to the known project's id and is dropped;
otherwise it is kept, recorded under its name, and maps to itself. -/
def mergeStep (acc : MergeAcc) (p : Project) : MergeAcc :=
  match acc.nameMap p.name with
  | some existing_p => { acc with idMap := updMap acc.idMap p.id existing_p.id }
  | none =>
    { nameMap := updMap acc.nameMap p.name p
      finalProjects := acc.finalProjects ++ [p]
      idMap := updMap acc.idMap p.id p.id }

def mergeProjects (existing_projects new_projects : List Project) : MergeAcc :=
  new_projects.foldl mergeStep
    { nameMap := buildNameMap existing_projects
      finalProjects := existing_projects
      idMap := fun _ => none }

/-- Task rewrite (main.py lines 840-842): if t.project_id in project_id_map,
point it at the translation; None is never a dict key, so a null reference
is untouched. -/
def remapTask (idMap : String → Option String) (t : Task) : Task :=
  match t.project_id with
  | some pid =>
    match idMap pid with
    | some nid => { t with project_id := some nid }
    | none => t
  | none => t

/-- Result of the initial smart merge: final project set plus the batch
tasks with translated project ids. -/
def mergeBatch (existing_projects new_projects : List Project) (new_tasks : List Task) :
    List Task × List Project :=
  let acc := mergeProjects existing_projects new_projects
  (new_tasks.map (remapTask acc.idMap), acc.finalProjects)

/-! ## Listing reads (main.filter_tasks, list_tasks sort key)

datetime.now() / fromisoformat arithmetic is abstracted by an oracle
daysUntil : String → Option Int giving (fromisoformat(s) - today).days, with
none standing for the ValueError raised on an unparseable date. -/

/-- The dict {p.id: p.name for p in projects}. -/
def buildNameProj (projects : List Project) : String → Option String :=
  projects.foldl (fun mp p => fun n => if n = p.id then some p.name else mp n) (fun _ => none)

/-- main.filter_tasks: drops archived tasks, then applies the id-prefix,
fuzzy project-name and due-window filters.  The due branch reads
t.deadline, an AttributeError on a task whose deadline attribute is absent;
a falsy deadline (None or "") skips the task, an unparseable one is skipped
by the ValueError handler. -/
def filter_tasks (daysUntil : String → Option Int)
    (tasks : List Task) (projects : List Project)
    (project_filter : Option String) (due_filter : Option Int) (id_filter : Option String) :
    Except Unit (List Task) :=
  let project_map := buildNameProj projects
  tasks.foldlM (fun acc t => do
    if t.status = TaskStatus.archived then .ok acc else
    if (match id_filter with
        | some idf => !(pyStartsWith t.id idf)
        | none => false) then .ok acc else
    let p_name := match t.project_id with
      | some pid => (match project_map pid with | some n => n | none => "No Project")
      | none => "No Project"
    if (match project_filter with
        | some pf => !(pySubstr (pyLower pf) (pyLower p_name))
        | none => false) then .ok acc else
    match due_filter with
    | some dv => do
      let dl ← t.getDeadline
      match dl with
      | none => .ok acc
      | some ds =>
        if ds = "" then .ok acc else
        match daysUntil ds with
        | none => .ok acc
        | some d => if dv < d then .ok acc else .ok (acc ++ [t])
    | none => .ok (acc ++ [t])) []

/-- The listing sort key (main.py lines 146-149): (project name, deadline
with empty-sentinel "9999-12-31", id).  Reading t.deadline raises on a task
whose attribute is absent. -/
def sort_key (project_map : String → Option String) (t : Task) :
    Except Unit (String × String × String) := do
  let p_name := match t.project_id with
    | some pid => (match project_map pid with | some n => n | none => "No Project")
    | none => "No Project"
  let dl ← t.getDeadline
  let deadline_val := match dl with
    | some s => if s = "" then "9999-12-31" else s
    | none => "9999-12-31"
  .ok (p_name, deadline_val, t.id)

/-! ## Tomato edits (main.edit lines 491-493 and 568-574, review loop lines
892-894): the prompt answer overwrites estimated_tomatoes only when it
passes isdigit(), which accepts "0". -/

/-- Python int(s) of an all-digit prompt answer. -/
def digitVal (s : String) : Int :=
  Int.ofNat (s.data.foldl (fun a c => 10 * a + (c.toNat - 48)) 0)

/-- Single-task tomato update (identical logic at main.py lines 491-493 and
892-894). -/
def applyTomatoInput (s : String) (t : Task) : Task :=
  if pyIsDigit s then { t with estimated_tomatoes := digitVal s } else t

/-- Bulk tomato update (main.py lines 568-574). -/
def bulkTomatoInput (s : String) (ts : List Task) : List Task :=
  if pyIsDigit s then ts.map (fun t => { t with estimated_tomatoes := digitVal s }) else ts

/-! ## Archive (main.archive, storage.append_to_archive)

The days > 0 branch compares fromisoformat(completed_at) against the
cutoff; that comparison is the oracle completedBeforeCutoff, with none
modelling the ValueError of an unparseable timestamp (the task is then
kept). -/

/-- Selection rule of main.archive: only DONE tasks, all of them when
days = 0, otherwise those whose completed_at parses and lies before the
cutoff. -/
def shouldArchive (days : Nat) (completedBeforeCutoff : String → Option Bool) (t : Task) :
    Bool :=
  t.status = TaskStatus.done &&
    (days = 0 ||
      (match t.completed_at with
       | some c => (completedBeforeCutoff c).getD false
       | none => false))

/-- Archived copies get status ARCHIVED before being appended. -/
def setArchived (t : Task) : Task := { t with status := TaskStatus.archived }

/-- main.archive: partition the active tasks, return early when nothing is
selected, otherwise save the kept tasks (projects untouched) and append the
archived copies to the archive file. -/
def archiveCmd (days : Nat) (completedBeforeCutoff : String → Option Bool)
    (fs : FileSys) : FileSys :=
  let sel := shouldArchive days completedBeforeCutoff
  let tasks_to_keep := fs.active.tasks.filter (fun t => !(sel t))
  let tasks_to_archive := (fs.active.tasks.filter sel).map setArchived
  if tasks_to_archive.isEmpty then fs
  else
    append_to_archive
      { fs with active := { tasks := tasks_to_keep, projects := fs.active.projects } }
      tasks_to_archive

/-! ## Review Session (main.ingest_logic lines 844-961)

The interactive loop holds the working batch (new_tasks, final_projects) in
memory; the only call to storage.save_data in the whole of ingest_logic is
the Save branch.  Each iteration first renders the draft table, which reads
t.deadline of every draft task; the AttributeError that the render raises on
a task without the attribute is caught only by the outer try of
ingest_logic, which returns False without writing (outcome `aborted`).
Prompt answers become fields of the actions; an answer the source would
fail to parse (caught ValueError) behaves as the no-op action. -/

structure ReviewState where
  newTasks : List Task
  finalProjects : List Project
deriving DecidableEq, Repr

/-- Prompt answers consumed by one Edit(index) sub-action, in prompt order;
newProjectId / newProjectCreatedAt stand for the generated
p_{timestamp} id and now() timestamp of an on-the-spot project creation. -/
structure EditInput where
  title : String
  tomatoes : String
  deadline : String
  projectName : String
  confirmCreate : Bool
  newProjectId : String
  newProjectCreatedAt : String
deriving DecidableEq, Repr

inductive ReviewAction where
  | save
  | discard
  | edit (n : Int) (inp : EditInput)
  | mergeProj (srcN destN : Int)
  | unknown
deriving DecidableEq, Repr

/-- Rendering the draft table (lines 858-862) reads t.deadline of every
draft task in order. -/
def renderDraft (st : ReviewState) : Except Unit Unit :=
  st.newTasks.foldlM (fun _ t => do
    let _ ← t.getDeadline
    .ok ()) ()

/-- The task value after the title, tomato and deadline prompts of one
Edit sub-action (lines 889-898): title overwritten, tomatoes digit-guarded,
deadline attribute assigned (empty stripped answer meaning None). -/
def editedTask (task0 : Task) (inp : EditInput) : Task :=
  { applyTomatoInput inp.tomatoes { task0 with title := inp.title } with
    deadline := some (if (pyStrip inp.deadline).data.isEmpty then none
                      else some inp.deadline) }

/-- Re-pointing an edited task at a project id. -/
def withProject (t : Task) (pid : String) : Task := { t with project_id := some pid }

/-- The Edit(index) sub-action (lines 882-924).  An index outside
0 ≤ idx < len(new_tasks) only prints a message; otherwise the chosen draft
task is mutated field by field; reading task.deadline for the deadline
prompt's default raises on a task without the attribute; the project answer
is find-or-create, creation appending to the working project set. -/
def applyEdit (st : ReviewState) (n : Int) (inp : EditInput) : Except Unit ReviewState :=
  if n - 1 < 0 then .ok st
  else
    match st.newTasks.get? (n - 1).toNat with
    | none => .ok st
    | some task0 =>
      match (applyTomatoInput inp.tomatoes { task0 with title := inp.title }).deadline with
      | none => .error ()
      | some _ =>
        match st.finalProjects.find? (fun p => p.name = inp.projectName) with
        | some found_p =>
          .ok { st with newTasks :=
            st.newTasks.set (n - 1).toNat (withProject (editedTask task0 inp) found_p.id) }
        | none =>
          if inp.confirmCreate then
            .ok { newTasks := st.newTasks.set (n - 1).toNat
                    (withProject (editedTask task0 inp) inp.newProjectId)
                  finalProjects := st.finalProjects ++
                    [{ name := inp.projectName, description := ""
                       id := inp.newProjectId, created_at := inp.newProjectCreatedAt }] }
          else .ok { st with newTasks := st.newTasks.set (n - 1).toNat (editedTask task0 inp) }

/-- The project names offered by the Merge-Projects sub-action (line 929):
names of working projects referenced by some draft task.  The source builds
a Python set, whose iteration order is unspecified; first-occurrence order
is taken as its model, and no property proved below depends on the order. -/
def draftProjectNames (st : ReviewState) : List String :=
  ((st.finalProjects.filter (fun p =>
      st.newTasks.any (fun t => t.project_id = some p.id))).map (fun p => p.name)).dedup

/-- The Merge-Projects sub-action (lines 926-958): with two valid distinct
indices into the listed names, every draft task assigned to the source
project is re-pointed at the destination project; the working project set
itself is unchanged and the store untouched. -/
def applyMergeProj (st : ReviewState) (srcN destN : Int) : ReviewState :=
  if srcN - 1 < 0 || destN - 1 < 0 || srcN = destN then st
  else
    match (draftProjectNames st).get? (srcN - 1).toNat,
          (draftProjectNames st).get? (destN - 1).toNat with
    | some src_name, some dest_name =>
      match st.finalProjects.find? (fun p => p.name = src_name),
            st.finalProjects.find? (fun p => p.name = dest_name) with
      | some src_p, some dest_p =>
        { st with newTasks := st.newTasks.map (fun t =>
            if t.project_id = some src_p.id then { t with project_id := some dest_p.id }
            else t) }
      | _, _ => st
    | _, _ => st

inductive ReviewOutcome where
  | saved
  | discarded
  | aborted
  | reviewing (st : ReviewState)
deriving DecidableEq, Repr

/-- A run of the review loop: the sequence of save_data writes it performed
and how it left off. -/
structure ReviewRun where
  writes : List Store
  outcome : ReviewOutcome
deriving DecidableEq, Repr

/-- The review loop driven by a finite script of actions.  Save performs
the single write (existing_tasks + new_tasks, final_projects) and returns
True; Discard returns False without writing; Edit and Merge-Projects only
transform the in-memory state and the loop continues; an exhausted script
leaves the loop still reviewing with nothing written. -/
def runReview (existing_tasks : List Task) (st : ReviewState) :
    List ReviewAction → ReviewRun
  | [] =>
    match renderDraft st with
    | .error _ => { writes := [], outcome := .aborted }
    | .ok _ => { writes := [], outcome := .reviewing st }
  | a :: rest =>
    match renderDraft st with
    | .error _ => { writes := [], outcome := .aborted }
    | .ok _ =>
      match a with
      | .save =>
        { writes := [{ tasks := existing_tasks ++ st.newTasks
                       projects := st.finalProjects }]
          outcome := .saved }
      | .discard => { writes := [], outcome := .discarded }
      | .edit n inp =>
        match applyEdit st n inp with
        | .ok st' => runReview existing_tasks st' rest
        | .error _ => { writes := [], outcome := .aborted }
      | .mergeProj s d => runReview existing_tasks (applyMergeProj st s d) rest
      | .unknown => runReview existing_tasks st rest

/-- The working state handed to the review loop by ingest_logic: the merged
batch against the loaded store. -/
def reviewInit (existing_projects new_projects : List Project) (new_tasks : List Task) :
    ReviewState :=
  { newTasks := (mergeBatch existing_projects new_projects new_tasks).1
    finalProjects := (mergeBatch existing_projects new_projects new_tasks).2 }

/-- The persisted store after a sequence of save_data writes. -/
def finalStore (init : Store) (writes : List Store) : Store :=
  writes.getLast?.getD init

/-! ## Decimal string lemmas -/

theorem digitChar_spec (d : Nat) (h : d < 10) :
    (digitChar d).isDigit = true ∧ (digitChar d).toNat = 48 + d ∧
      (digitChar d).isWhitespace = false ∧ digitChar d ≠ ',' ∧ digitChar d ≠ '-' := by
  interval_cases d <;> exact ⟨by decide, by decide, by decide, by decide, by decide⟩

theorem pyChars_digits (n : Nat) : ∀ c ∈ pyChars n, c.isDigit = true := by
  intro c hc
  unfold pyChars at hc
  by_cases h : n = 0
  · simp [h] at hc
    simp [hc]
  · simp [h] at hc
    obtain ⟨d, hd, hdc⟩ := hc
    have hlt : d < 10 := Nat.digits_lt_base (by norm_num) hd
    exact hdc ▸ (digitChar_spec d hlt).1

theorem pyChars_ne_nil (n : Nat) : pyChars n ≠ [] := by
  unfold pyChars
  by_cases h : n = 0
  · simp [h]
  · simp [h, Nat.digits_ne_nil_iff_ne_zero]

theorem foldl_digit_chars (ds : List Nat) (h : ∀ d ∈ ds, d < 10) : ∀ acc : Nat,
    ((ds.reverse).map digitChar).foldl (fun a c => 10 * a + (c.toNat - 48)) acc
      = acc * 10 ^ ds.length + Nat.ofDigits 10 ds := by
  induction ds with
  | nil => intro acc; simp
  | cons d rest ih =>
    intro acc
    rw [List.reverse_cons, List.map_append, List.foldl_append]
    have hd : (digitChar d).toNat = 48 + d :=
      (digitChar_spec d (h d (List.mem_cons_self d rest))).2.1
    rw [ih (fun x hx => h x (List.mem_cons_of_mem d hx)) acc]
    simp only [List.map_cons, List.map_nil, List.foldl_cons, List.foldl_nil, hd]
    rw [Nat.ofDigits_cons]
    have h48 : 48 + d - 48 = d := by omega
    rw [h48]
    simp only [List.length_cons, pow_succ]
    ring

theorem parseDigits_pyChars (n : Nat) : parseDigits (pyChars n) = some n := by
  by_cases h : n = 0
  · subst h; decide
  · have hne := pyChars_ne_nil n
    have hdig := pyChars_digits n
    unfold parseDigits
    rw [if_neg]
    · congr 1
      unfold pyChars
      rw [if_neg h]
      rw [foldl_digit_chars _ (fun d hd => Nat.digits_lt_base (by norm_num) hd) 0]
      simp [Nat.ofDigits_digits]
    · have h1 : (pyChars n).isEmpty = false := by simp [List.isEmpty_iff, hne]
      have h2 : (pyChars n).all Char.isDigit = true := List.all_eq_true.mpr hdig
      simp [h1, h2]

theorem pyStr_inj {m n : Nat} (h : pyStr m = pyStr n) : m = n := by
  have hc : pyChars m = pyChars n := congrArg String.data h
  have := parseDigits_pyChars m
  rw [hc, parseDigits_pyChars n] at this
  exact (Option.some_inj.mp this).symm

theorem pyIsDigit_pyStr (n : Nat) : pyIsDigit (pyStr n) = true := by
  unfold pyIsDigit pyStr
  simp [List.isEmpty_iff, pyChars_ne_nil n, List.all_eq_true]
  exact pyChars_digits n

theorem pyChars_no_dash (n : Nat) : ∀ c ∈ pyChars n, c ≠ '-' := by
  intro c hc
  unfold pyChars at hc
  by_cases h : n = 0
  · simp [h] at hc; simp [hc]
  · simp [h] at hc
    obtain ⟨d, hd, hdc⟩ := hc
    have hlt : d < 10 := Nat.digits_lt_base (by norm_num) hd
    exact hdc ▸ (digitChar_spec d hlt).2.2.2.2

theorem pyChars_no_comma (n : Nat) : ∀ c ∈ pyChars n, c ≠ ',' := by
  intro c hc
  unfold pyChars at hc
  by_cases h : n = 0
  · simp [h] at hc; simp [hc]
  · simp [h] at hc
    obtain ⟨d, hd, hdc⟩ := hc
    have hlt : d < 10 := Nat.digits_lt_base (by norm_num) hd
    exact hdc ▸ (digitChar_spec d hlt).2.2.2.1

theorem pyChars_no_ws (n : Nat) : ∀ c ∈ pyChars n, c.isWhitespace = false := by
  intro c hc
  unfold pyChars at hc
  by_cases h : n = 0
  · simp [h] at hc; simp [hc]
  · simp [h] at hc
    obtain ⟨d, hd, hdc⟩ := hc
    have hlt : d < 10 := Nat.digits_lt_base (by norm_num) hd
    exact hdc ▸ (digitChar_spec d hlt).2.2.1

/-! ## Splitting and stripping lemmas -/

theorem splitChars_ne_nil (sep : Char) (l : List Char) : splitChars sep l ≠ [] := by
  cases l with
  | nil => simp [splitChars]
  | cons c rest =>
    unfold splitChars
    match h : splitChars sep rest with
    | [] => simp
    | g :: gs => by_cases hc : c = sep <;> simp [hc]

theorem splitChars_no_sep (sep : Char) (l : List Char) (h : ∀ c ∈ l, c ≠ sep) :
    splitChars sep l = [l] := by
  induction l with
  | nil => rfl
  | cons c rest ih =>
    unfold splitChars
    rw [ih (fun x hx => h x (List.mem_cons_of_mem c hx))]
    simp [h c (List.mem_cons_self c rest)]

theorem splitChars_sep_mid (sep : Char) (A B : List Char)
    (hA : ∀ c ∈ A, c ≠ sep) (hB : ∀ c ∈ B, c ≠ sep) :
    splitChars sep (A ++ sep :: B) = [A, B] := by
  induction A with
  | nil =>
    simp only [List.nil_append]
    unfold splitChars
    rw [splitChars_no_sep sep B hB]
    simp
  | cons c rest ih =>
    simp only [List.cons_append]
    unfold splitChars
    rw [ih (fun x hx => hA x (List.mem_cons_of_mem c hx))]
    simp [hA c (List.mem_cons_self c rest)]

theorem splitChars_chars (sep : Char) (l : List Char) :
    ∀ g ∈ splitChars sep l, ∀ c ∈ g, c ∈ l ∧ c ≠ sep := by
  induction l with
  | nil => intro g hg c hc; simp [splitChars] at hg; subst hg; simp at hc
  | cons x rest ih =>
    intro g hg c hc
    unfold splitChars at hg
    match h : splitChars sep rest with
    | [] => exact absurd h (splitChars_ne_nil sep rest)
    | g0 :: gs =>
      rw [h] at hg
      by_cases hx : x = sep
      · simp [hx] at hg
        rcases hg with hg | hg | hg
        · subst hg; simp at hc
        · have := ih g0 (by rw [h]; exact List.mem_cons_self g0 gs) c (hg ▸ hc)
          exact ⟨List.mem_cons_of_mem x this.1, this.2⟩
        · have := ih g (by rw [h]; exact List.mem_cons_of_mem g0 hg) c hc
          exact ⟨List.mem_cons_of_mem x this.1, this.2⟩
      · simp [hx] at hg
        rcases hg with hg | hg
        · subst hg
          rcases List.mem_cons.mp hc with hc | hc
          · exact ⟨hc ▸ List.mem_cons_self x rest, hc ▸ hx⟩
          · have := ih g0 (by rw [h]; exact List.mem_cons_self g0 gs) c hc
            exact ⟨List.mem_cons_of_mem x this.1, this.2⟩
        · have := ih g (by rw [h]; exact List.mem_cons_of_mem g0 hg) c hc
          exact ⟨List.mem_cons_of_mem x this.1, this.2⟩

theorem dropWhile_of_all_neg {p : Char → Bool} {l : List Char}
    (h : ∀ c ∈ l, p c = false) : l.dropWhile p = l := by
  cases l with
  | nil => rfl
  | cons c rest => simp [List.dropWhile_cons, h c (List.mem_cons_self c rest)]

theorem pyStrip_of_no_ws (s : String) (h : ∀ c ∈ s.data, c.isWhitespace = false) :
    pyStrip s = s := by
  unfold pyStrip
  rw [dropWhile_of_all_neg h,
      dropWhile_of_all_neg (fun c hc => h c (List.mem_reverse.mp hc)),
      List.reverse_reverse]

theorem pySplit_no_sep (sep : Char) (s : String) (h : ∀ c ∈ s.data, c ≠ sep) :
    pySplit sep s = [s] := by
  unfold pySplit
  rw [splitChars_no_sep sep s.data h]
  rfl

/-! ## Session index lookup lemmas -/

theorem lookupIdx_buildIndexFrom (ids : List String) : ∀ (k i : Nat) (h : i < ids.length),
    lookupIdx (buildIndexFrom k ids) (pyStr (k + i)) = some (ids.get ⟨i, h⟩) := by
  induction ids with
  | nil => intro k i h; simp at h
  | cons x rest ih =>
    intro k i h
    match i with
    | 0 =>
      simp only [Nat.add_zero]
      simp [buildIndexFrom, lookupIdx, List.find?_cons_of_pos]
    | j + 1 =>
      have hne : ¬(pyStr k = pyStr (k + (j + 1))) := fun he => by
        have := pyStr_inj he; omega
      unfold buildIndexFrom lookupIdx
      rw [List.find?_cons_of_neg _ (by simpa using hne)]
      have hj : j < rest.length := by simpa using h
      have := ih (k + 1) j hj
      have hadd : k + 1 + j = k + (j + 1) := by omega
      rw [hadd] at this
      simpa [lookupIdx, List.get_cons_succ] using this

theorem lookupIdx_registerListing (displayed : List Task) (i : Nat)
    (h1 : 1 ≤ i) (h2 : i ≤ displayed.length) :
    lookupIdx (registerListing displayed) (pyStr i)
      = (displayed.map (fun t => t.id)).get? (i - 1) := by
  have hlt : i - 1 < (displayed.map (fun t => t.id)).length := by
    simp; omega
  have := lookupIdx_buildIndexFrom (displayed.map (fun t => t.id)) 1 (i - 1) hlt
  have hi : 1 + (i - 1) = i := by omega
  rw [hi] at this
  rw [registerListing, this, List.get?_eq_get hlt]

/-! ## filterMap helper -/

theorem filterMap_all_some {α β : Type} (f : α → Option β) (g : α → β) (l : List α)
    (h : ∀ x ∈ l, f x = some (g x)) : l.filterMap f = l.map g := by
  induction l with
  | nil => rfl
  | cons x rest ih =>
    rw [List.filterMap_cons, h x (List.mem_cons_self x rest), List.map_cons,
        ih (fun y hy => h y (List.mem_cons_of_mem x hy))]

/-! ## parse_task_refs characterization

refMalformed captures exactly the tokens on which the range branch raises
an uncaught ValueError: the dash-guard accepts them but the split is not
two nonempty digit groups.  tokenIds / tokenUnmatched give the per-token
contribution on every other token. -/

def refMalformed (ref : String) : Bool :=
  dashGuard ref &&
    !(match splitChars '-' ref.data with
      | [a, b] => !a.isEmpty && !b.isEmpty
      | _ => false)

def tokenIds (tasks : List Task) (m : IndexMap) (ref : String) : List String :=
  if dashGuard ref then
    match splitChars '-' ref.data with
    | [a, b] =>
      match parseDigits a, parseDigits b with
      | some s, some e => (List.range' s (e + 1 - s)).filterMap (fun i => lookupIdx m (pyStr i))
      | _, _ => []
    | _ => []
  else if pyIsDigit ref && (lookupIdx m ref).isSome then (lookupIdx m ref).toList
  else
    match tasks.find? (fun t => pyStartsWith t.id ref) with
    | some t => [t.id]
    | none => []

def tokenUnmatched (tasks : List Task) (m : IndexMap) (ref : String) : Bool :=
  !dashGuard ref && !(pyIsDigit ref && (lookupIdx m ref).isSome) &&
    (tasks.find? (fun t => pyStartsWith t.id ref)).isNone

theorem parseDigits_of_dashGuard {ref : String} {a : List Char}
    (hg : dashGuard ref = true) (ha : a ∈ splitChars '-' ref.data) (hne : a ≠ []) :
    ∃ v, parseDigits a = some v := by
  have hdig : ∀ c ∈ a, c.isDigit = true := by
    intro c hc
    have hmem := splitChars_chars '-' ref.data a ha c hc
    unfold dashGuard at hg
    simp only [Bool.and_eq_true] at hg
    have hall := hg.2.2
    rw [List.all_eq_true] at hall
    exact hall c (List.mem_filter.mpr ⟨hmem.1, by simpa [nonDash] using hmem.2⟩)
  refine ⟨a.foldl (fun x c => 10 * x + (c.toNat - 48)) 0, ?_⟩
  unfold parseDigits
  rw [if_neg]
  have h1 : a.isEmpty = false := by simpa [List.isEmpty_iff] using hne
  have h2 : a.all Char.isDigit = true := List.all_eq_true.mpr hdig
  simp [h1, h2]

theorem processRef_ok (tasks : List Task) (m : IndexMap) (acc : ParseOut) (ref : String)
    (h : refMalformed ref = false) :
    processRef tasks m acc ref =
      .ok { ids := acc.ids ++ tokenIds tasks m ref
            warns := acc.warns ++ (if tokenUnmatched tasks m ref then [ref] else []) } := by
  unfold processRef tokenIds tokenUnmatched
  by_cases hg : dashGuard ref = true
  · rw [hg]
    simp only [if_true]
    unfold refMalformed at h
    rw [hg] at h
    simp only [Bool.true_and, Bool.not_eq_false'] at h
    match hs : splitChars '-' ref.data with
    | [a, b] =>
      rw [hs] at h
      simp only [Bool.and_eq_true, Bool.not_eq_true', List.isEmpty_iff] at h
      obtain ⟨v1, hv1⟩ := parseDigits_of_dashGuard hg
        (by rw [hs]; exact List.mem_cons_self a [b]) (by simpa [List.isEmpty_iff] using h.1)
      obtain ⟨v2, hv2⟩ := parseDigits_of_dashGuard hg
        (by rw [hs]; exact List.mem_cons_of_mem a (List.mem_cons_self b []))
        (by simpa [List.isEmpty_iff] using h.2)
      simp [hv1, hv2, hg]
    | [] => rw [hs] at h; simp at h
    | [a] => rw [hs] at h; simp at h
    | a :: b :: c :: rest => rw [hs] at h; simp at h
  · replace hg : dashGuard ref = false := by simpa using hg
    rw [hg]
    simp only [Bool.false_eq_true, if_false]
    by_cases hi : (pyIsDigit ref && (lookupIdx m ref).isSome) = true
    · rw [hi]
      simp [hg, hi]
    · replace hi : (pyIsDigit ref && (lookupIdx m ref).isSome) = false := by simpa using hi
      rw [hi]
      simp only [Bool.false_eq_true, if_false]
      match hf : tasks.find? (fun t => pyStartsWith t.id ref) with
      | some t => simp [hg, hi, hf]
      | none => simp [hg, hi, hf]

theorem foldlM_processRef (tasks : List Task) (m : IndexMap) (refs : List String)
    (h : ∀ r ∈ refs, refMalformed r = false) : ∀ acc : ParseOut,
    refs.foldlM (processRef tasks m) acc =
      .ok { ids := acc.ids ++ (refs.map (tokenIds tasks m)).flatten
            warns := acc.warns ++ refs.filter (tokenUnmatched tasks m) } := by
  induction refs with
  | nil =>
    intro acc
    show Except.ok acc = _
    simp
  | cons r rest ih =>
    intro acc
    rw [List.foldlM_cons, processRef_ok tasks m acc r (h r (List.mem_cons_self r rest))]
    have hrest : ∀ x ∈ rest, refMalformed x = false :=
      fun x hx => h x (List.mem_cons_of_mem r hx)
    have hbind : ∀ (X : ParseOut) (g : ParseOut → Except Unit ParseOut),
        (Except.ok X) >>= g = g X := fun _ _ => rfl
    rw [hbind, ih hrest]
    congr 1
    simp only [List.map_cons, List.flatten_cons, List.filter_cons]
    by_cases hu : tokenUnmatched tasks m r = true
    · simp [hu, List.append_assoc]
    · replace hu : tokenUnmatched tasks m r = false := by simpa using hu
      simp [hu, List.append_assoc]

theorem parse_task_refs_ok (s : String) (tasks : List Task) (m : IndexMap)
    (h : ∀ r ∈ (pySplit ',' s).map pyStrip, refMalformed r = false) :
    parse_task_refs s tasks m =
      .ok { ids := ((((pySplit ',' s).map pyStrip).map (tokenIds tasks m)).flatten).dedup
            warns := ((pySplit ',' s).map pyStrip).filter (tokenUnmatched tasks m) } := by
  unfold parse_task_refs
  rw [foldlM_processRef tasks m _ h ⟨[], []⟩]
  simp

/-! ## Merge Engine lemmas -/

def projIds (ps : List Project) : List String := ps.map (fun p => p.id)

def projNames (ps : List Project) : List String := ps.map (fun p => p.name)

theorem buildNameMap_append (ps : List Project) (p : Project) (n : String) :
    buildNameMap (ps ++ [p]) n = if n = p.name then some p else buildNameMap ps n := by
  unfold buildNameMap
  rw [List.foldl_append]
  rfl

theorem buildNameMap_mem_of (ps : List Project) (n : String) (p : Project)
    (h : buildNameMap ps n = some p) : p ∈ ps ∧ p.name = n := by
  induction ps using List.reverseRecOn with
  | nil => simp [buildNameMap] at h
  | append_singleton rest q ih =>
    rw [buildNameMap_append] at h
    by_cases hn : n = q.name
    · rw [if_pos hn] at h
      exact ⟨by simp [← Option.some_inj.mp h], by rw [← Option.some_inj.mp h]; exact hn.symm⟩
    · rw [if_neg hn] at h
      have := ih h
      exact ⟨by simp [this.1], this.2⟩

theorem buildNameMap_isSome_of_mem (ps : List Project) (n : String)
    (h : n ∈ projNames ps) : (buildNameMap ps n).isSome := by
  induction ps using List.reverseRecOn with
  | nil => simp [projNames] at h
  | append_singleton rest q ih =>
    rw [buildNameMap_append]
    by_cases hn : n = q.name
    · simp [hn]
    · rw [if_neg hn]
      apply ih
      simp only [projNames, List.map_append, List.mem_append] at h
      rcases h with h | h
      · exact h
      · simp at h; exact absurd h hn

/-- Invariant of the project-merge fold: the final set extends the existing
projects only by batch projects with fresh names, every name-map and id-map
binding lands inside the final set, and bindings at pre-existing names are
never overwritten. -/
structure MInvH (existing : List Project) (acc : MergeAcc) : Prop where
  kept : ∃ kept, acc.finalProjects = existing ++ kept ∧
    ∀ q ∈ kept, q.name ∉ projNames existing
  nameDom : ∀ n p, acc.nameMap n = some p → p.id ∈ projIds acc.finalProjects
  idDom : ∀ k v, acc.idMap k = some v → v ∈ projIds acc.finalProjects
  namesFixed : ∀ n, n ∈ projNames existing → acc.nameMap n = buildNameMap existing n

theorem MInvH_init (ex : List Project) :
    MInvH ex { nameMap := buildNameMap ex, finalProjects := ex, idMap := fun _ => none } := by
  refine ⟨⟨[], by simp⟩, ?_, ?_, ?_⟩
  · intro n p h
    have := buildNameMap_mem_of ex n p h
    exact List.mem_map.mpr ⟨p, this.1, rfl⟩
  · intro k v h; simp at h
  · intro n _; rfl

theorem updMap_self {V : Type} (mp : String → Option V) (k : String) (v : V) :
    updMap mp k v k = some v := by simp [updMap]

theorem updMap_other {V : Type} (mp : String → Option V) (k : String) (v : V)
    (n : String) (h : n ≠ k) : updMap mp k v n = mp n := by simp [updMap, h]

theorem mergeStep_eq_some {acc : MergeAcc} {p ep : Project}
    (hm : acc.nameMap p.name = some ep) :
    mergeStep acc p = { acc with idMap := updMap acc.idMap p.id ep.id } := by
  unfold mergeStep
  rw [hm]

theorem mergeStep_eq_none {acc : MergeAcc} {p : Project}
    (hm : acc.nameMap p.name = none) :
    mergeStep acc p =
      { nameMap := updMap acc.nameMap p.name p
        finalProjects := acc.finalProjects ++ [p]
        idMap := updMap acc.idMap p.id p.id } := by
  unfold mergeStep
  rw [hm]

theorem mergeStep_inv {ex : List Project} {acc : MergeAcc} (p : Project)
    (h : MInvH ex acc) : MInvH ex (mergeStep acc p) := by
  rcases hm : acc.nameMap p.name with _ | ep
  · have hfresh : p.name ∉ projNames ex := by
      intro hmem
      have h1 := h.namesFixed p.name hmem
      rw [hm] at h1
      have h2 := buildNameMap_isSome_of_mem ex p.name hmem
      rw [← h1] at h2
      simp at h2
    rw [mergeStep_eq_none hm]
    refine ⟨?_, ?_, ?_, ?_⟩
    · obtain ⟨kept, hk, hkn⟩ := h.kept
      refine ⟨kept ++ [p], by simp [hk, List.append_assoc], ?_⟩
      intro q hq
      rcases List.mem_append.mp hq with hq | hq
      · exact hkn q hq
      · simp at hq; exact hq ▸ hfresh
    · intro n q hq
      dsimp only at hq ⊢
      by_cases hn : n = p.name
      · subst hn
        rw [updMap_self] at hq
        simp [projIds, ← Option.some_inj.mp hq]
      · rw [updMap_other _ _ _ _ hn] at hq
        have := h.nameDom n q hq
        simp only [projIds, List.map_append, List.mem_append]
        exact Or.inl this
    · intro k v hv
      dsimp only at hv ⊢
      by_cases hk : k = p.id
      · subst hk
        rw [updMap_self] at hv
        simp [projIds, ← Option.some_inj.mp hv]
      · rw [updMap_other _ _ _ _ hk] at hv
        have := h.idDom k v hv
        simp only [projIds, List.map_append, List.mem_append]
        exact Or.inl this
    · intro n hn
      dsimp only
      have hne : n ≠ p.name := fun he => hfresh (he ▸ hn)
      rw [updMap_other _ _ _ _ hne]
      exact h.namesFixed n hn
  · rw [mergeStep_eq_some hm]
    refine ⟨h.kept, h.nameDom, ?_, h.namesFixed⟩
    intro k v hv
    dsimp only at hv ⊢
    by_cases hk : k = p.id
    · subst hk
      rw [updMap_self] at hv
      exact Option.some_inj.mp hv ▸ h.nameDom p.name ep hm
    · rw [updMap_other _ _ _ _ hk] at hv
      exact h.idDom k v hv

theorem foldl_mergeStep_inv (ex : List Project) (batch : List Project) :
    ∀ acc, MInvH ex acc → MInvH ex (batch.foldl mergeStep acc) := by
  induction batch with
  | nil => intro acc h; exact h
  | cons p rest ih =>
    intro acc h
    exact ih (mergeStep acc p) (mergeStep_inv p h)

theorem mergeProjects_inv (ex batch : List Project) : MInvH ex (mergeProjects ex batch) :=
  foldl_mergeStep_inv ex batch _ (MInvH_init ex)

theorem mergeStep_idMap_mono {acc : MergeAcc} (p : Project) (k : String)
    (h : (acc.idMap k).isSome) : ((mergeStep acc p).idMap k).isSome := by
  rcases hm : acc.nameMap p.name with _ | ep
  · rw [mergeStep_eq_none hm]
    by_cases hk : k = p.id
    · subst hk; simp [updMap_self]
    · simp only [updMap_other _ _ _ _ hk]; exact h
  · rw [mergeStep_eq_some hm]
    by_cases hk : k = p.id
    · subst hk; simp [updMap_self]
    · simp only [updMap_other _ _ _ _ hk]; exact h

theorem mergeStep_idMap_own (acc : MergeAcc) (p : Project) :
    ((mergeStep acc p).idMap p.id).isSome := by
  rcases hm : acc.nameMap p.name with _ | ep
  · rw [mergeStep_eq_none hm]; simp [updMap_self]
  · rw [mergeStep_eq_some hm]; simp [updMap_self]

theorem foldl_idMap_mono (batch : List Project) :
    ∀ (acc : MergeAcc) (k : String), (acc.idMap k).isSome →
      ((batch.foldl mergeStep acc).idMap k).isSome := by
  induction batch with
  | nil => intro acc k h; exact h
  | cons p rest ih =>
    intro acc k h
    exact ih (mergeStep acc p) k (mergeStep_idMap_mono p k h)

theorem foldl_idMap_defined (batch : List Project) :
    ∀ (acc : MergeAcc) (p : Project), p ∈ batch →
      ((batch.foldl mergeStep acc).idMap p.id).isSome := by
  induction batch with
  | nil => intro acc p h; simp at h
  | cons q rest ih =>
    intro acc p h
    rcases List.mem_cons.mp h with h | h
    · subst h
      exact foldl_idMap_mono rest (mergeStep acc p) p.id (mergeStep_idMap_own acc p)
    · exact ih (mergeStep acc q) p h

theorem mergeStep_idMap_other {acc : MergeAcc} (q : Project) (k : String) (h : q.id ≠ k) :
    (mergeStep acc q).idMap k = acc.idMap k := by
  have hk : k ≠ q.id := fun he => h he.symm
  rcases hm : acc.nameMap q.name with _ | ep
  · rw [mergeStep_eq_none hm]; exact updMap_other _ _ _ _ hk
  · rw [mergeStep_eq_some hm]; exact updMap_other _ _ _ _ hk

theorem foldl_idMap_frozen (batch : List Project) :
    ∀ (acc : MergeAcc) (k : String), (∀ q ∈ batch, q.id ≠ k) →
      (batch.foldl mergeStep acc).idMap k = acc.idMap k := by
  induction batch with
  | nil => intro acc k _; rfl
  | cons q rest ih =>
    intro acc k h
    rw [List.foldl_cons, ih (mergeStep acc q) k (fun x hx => h x (List.mem_cons_of_mem q hx)),
        mergeStep_idMap_other q k (h q (List.mem_cons_self q rest))]

theorem merge_repoint (ex batch : List Project) (hnodup : (projIds batch).Nodup)
    (p : Project) (hp : p ∈ batch) (hname : p.name ∈ projNames ex) :
    ∃ ep, ep ∈ ex ∧ ep.name = p.name ∧ (mergeProjects ex batch).idMap p.id = some ep.id := by
  obtain ⟨l1, l2, rfl⟩ := List.append_of_mem hp
  have hinv1 : MInvH ex (l1.foldl mergeStep
      { nameMap := buildNameMap ex, finalProjects := ex, idMap := fun _ => none }) :=
    foldl_mergeStep_inv ex l1 _ (MInvH_init ex)
  set acc1 := l1.foldl mergeStep
      { nameMap := buildNameMap ex, finalProjects := ex, idMap := fun _ => none } with hacc1
  have hsome := buildNameMap_isSome_of_mem ex p.name hname
  obtain ⟨ep, hep⟩ := Option.isSome_iff_exists.mp hsome
  have hmem := buildNameMap_mem_of ex p.name ep hep
  refine ⟨ep, hmem.1, hmem.2, ?_⟩
  have hnm : acc1.nameMap p.name = some ep := by
    rw [hinv1.namesFixed p.name hname, hep]
  have hstep : (mergeStep acc1 p).idMap p.id = some ep.id := by
    rw [mergeStep_eq_some hnm]
    exact updMap_self _ _ _
  have hfrozen : ∀ q ∈ l2, q.id ≠ p.id := by
    intro q hq he
    have : (projIds (l1 ++ p :: l2)).Nodup := hnodup
    simp only [projIds, List.map_append, List.map_cons, List.nodup_append] at this
    have hnodup2 : (p.id :: l2.map (fun x => x.id)).Nodup := this.2.1
    rw [List.nodup_cons] at hnodup2
    exact hnodup2.1 (List.mem_map.mpr ⟨q, hq, he⟩)
  unfold mergeProjects
  rw [List.foldl_append, List.foldl_cons, ← hacc1,
      foldl_idMap_frozen l2 (mergeStep acc1 p) p.id hfrozen, hstep]

/-- Invariant for a batch whose names are all known: the fold never keeps a
project, never disturbs the name map, and all id translations land in the
existing set. -/
structure SubInv (ex : List Project) (acc : MergeAcc) : Prop where
  final_eq : acc.finalProjects = ex
  names_eq : ∀ n, acc.nameMap n = buildNameMap ex n
  idCod : ∀ k v, acc.idMap k = some v → v ∈ projIds ex

theorem subInv_step {ex : List Project} {acc : MergeAcc} (p : Project)
    (hp : p.name ∈ projNames ex) (h : SubInv ex acc) : SubInv ex (mergeStep acc p) := by
  have hsome := buildNameMap_isSome_of_mem ex p.name hp
  obtain ⟨ep, hep⟩ := Option.isSome_iff_exists.mp hsome
  have hm : acc.nameMap p.name = some ep := by rw [h.names_eq, hep]
  rw [mergeStep_eq_some hm]
  refine ⟨h.final_eq, h.names_eq, ?_⟩
  intro k v hv
  dsimp only at hv
  by_cases hk : k = p.id
  · subst hk
    rw [updMap_self] at hv
    have := buildNameMap_mem_of ex p.name ep hep
    exact Option.some_inj.mp hv ▸ List.mem_map.mpr ⟨ep, this.1, rfl⟩
  · rw [updMap_other _ _ _ _ hk] at hv
    exact h.idCod k v hv

theorem mergeProjects_subInv (ex : List Project) (batch : List Project)
    (hsub : ∀ p ∈ batch, p.name ∈ projNames ex) : SubInv ex (mergeProjects ex batch) := by
  unfold mergeProjects
  have : ∀ (l : List Project), (∀ p ∈ l, p.name ∈ projNames ex) → ∀ acc, SubInv ex acc →
      SubInv ex (l.foldl mergeStep acc) := by
    intro l
    induction l with
    | nil => intro _ acc h; exact h
    | cons p rest ih =>
      intro hl acc h
      exact ih (fun x hx => hl x (List.mem_cons_of_mem p hx)) (mergeStep acc p)
        (subInv_step p (hl p (List.mem_cons_self p rest)) h)
  exact this batch hsub _ ⟨rfl, fun _ => rfl, fun k v hv => by simp at hv⟩

theorem remap_no_dangling {idMap : String → Option String} {T : List String} {t : Task}
    (hdef : ∀ pid, t.project_id = some pid → (idMap pid).isSome)
    (hcod : ∀ k v, idMap k = some v → v ∈ T) :
    ∀ pid, (remapTask idMap t).project_id = some pid → pid ∈ T := by
  intro pid hp
  rcases ht : t.project_id with _ | pid0
  · unfold remapTask at hp
    rw [ht] at hp
    simp at hp
    rw [ht] at hp
    simp at hp
  · obtain ⟨v, hv⟩ := Option.isSome_iff_exists.mp (hdef pid0 ht)
    unfold remapTask at hp
    rw [ht] at hp
    simp only [hv] at hp
    simp at hp
    exact hp ▸ hcod pid0 v hv

/-! ## Concrete merge scenario (spec section 8) -/

def projWork : Project :=
  { name := "Work", description := "", id := "p1", created_at := "2025-01-01T00:00:00" }

def projBatchWork : Project :=
  { name := "Work", description := "", id := "bp1", created_at := "2025-01-02T00:00:00" }

def taskWriteReport : Task :=
  mkGeminiTask "Write report" "" 1 (some "bp1") "t1" "2025-01-02T00:00:00"

/-- C1: for every existing store and batch whose draft tasks reference only
draft projects of the same batch (or nothing), the merge result has no
dangling project references — every task's project_id is null or the id of
a project in the final set; a batch project whose name equals an existing
project's name is dropped from the final set and every task that referenced
it is re-pointed at the id of the existing project of that name; and on the
concrete scenario (store: Project "Work" = p1, no tasks; batch: Project
"Work" = bp1 plus one task referencing bp1) the result is exactly the one
project p1 with the task re-pointed at p1. -/
theorem C1_merge_referential_integrity
    (existing_projects new_projects : List Project) (new_tasks : List Task)
    (hids : (projIds new_projects).Nodup)
    (href : ∀ t ∈ new_tasks, ∀ pid, t.project_id = some pid → pid ∈ projIds new_projects) :
    (∀ t ∈ (mergeBatch existing_projects new_projects new_tasks).1,
        ∀ pid, t.project_id = some pid →
          pid ∈ projIds (mergeBatch existing_projects new_projects new_tasks).2)
    ∧ (∀ p ∈ new_projects, p.name ∈ projNames existing_projects →
        p ∉ ((mergeBatch existing_projects new_projects new_tasks).2).drop
              existing_projects.length
        ∧ ∀ t ∈ new_tasks, t.project_id = some p.id →
            ∃ ep ∈ existing_projects, ep.name = p.name ∧
              remapTask (mergeProjects existing_projects new_projects).idMap t
                = { t with project_id := some ep.id })
    ∧ mergeBatch [projWork] [projBatchWork] [taskWriteReport]
        = ([{ taskWriteReport with project_id := some "p1" }], [projWork]) := by
  have hinv := mergeProjects_inv existing_projects new_projects
  refine ⟨?_, ?_, by decide⟩
  · intro t ht pid hp
    obtain ⟨t0, ht0, rfl⟩ := List.mem_map.mp ht
    refine remap_no_dangling ?_ hinv.idDom pid hp
    intro pid0 hpid0
    have hmem := href t0 ht0 pid0 hpid0
    obtain ⟨q, hq, hqid⟩ := List.mem_map.mp hmem
    exact hqid ▸ foldl_idMap_defined new_projects _ q hq
  · intro p hp hname
    obtain ⟨kept, hkept, hfreshn⟩ := hinv.kept
    constructor
    · intro hdrop
      rw [mergeBatch] at hdrop
      simp only at hdrop
      rw [hkept, List.drop_left] at hdrop
      exact hfreshn p hdrop hname
    · intro t ht htp
      obtain ⟨ep, hepmem, hepname, hmap⟩ := merge_repoint existing_projects new_projects hids p hp hname
      refine ⟨ep, hepmem, hepname, ?_⟩
      unfold remapTask
      rw [htp]
      simp only [hmap]

/-- C7: merging a batch whose project names all occur among the existing
store's project names creates zero new projects — the final project set is
exactly the existing one — and every batch task that referenced a batch
project ends up referencing an existing project's id. -/
theorem C7_merge_idempotent_on_names
    (existing_projects new_projects : List Project) (new_tasks : List Task)
    (hsub : ∀ p ∈ new_projects, p.name ∈ projNames existing_projects)
    (href : ∀ t ∈ new_tasks, ∀ pid, t.project_id = some pid → pid ∈ projIds new_projects) :
    (mergeBatch existing_projects new_projects new_tasks).2 = existing_projects
    ∧ ∀ t ∈ (mergeBatch existing_projects new_projects new_tasks).1,
        ∀ pid, t.project_id = some pid → pid ∈ projIds existing_projects := by
  have hsubinv := mergeProjects_subInv existing_projects new_projects hsub
  constructor
  · exact hsubinv.final_eq
  · intro t ht pid hp
    obtain ⟨t0, ht0, rfl⟩ := List.mem_map.mp ht
    refine remap_no_dangling ?_ hsubinv.idCod pid hp
    intro pid0 hpid0
    have hmem := href t0 ht0 pid0 hpid0
    obtain ⟨q, hq, hqid⟩ := List.mem_map.mp hmem
    exact hqid ▸ foldl_idMap_defined new_projects _ q hq

/-! ## Claim C1 / C7 witnesses -/

/-- Witness for C1 at the spec's concrete scenario. -/
theorem C1_merge_referential_integrity_witness :
    mergeBatch [projWork] [projBatchWork] [taskWriteReport]
      = ([{ taskWriteReport with project_id := some "p1" }], [projWork]) :=
  (C1_merge_referential_integrity [projWork] [projBatchWork] [taskWriteReport]
    (by decide)
    (by
      intro t ht pid hpid
      rw [List.mem_singleton] at ht
      subst ht
      have hb : pid = "bp1" := by
        have h1 : some "bp1" = some pid := by
          simpa [taskWriteReport, mkGeminiTask] using hpid
        exact (Option.some_inj.mp h1).symm
      simp [projIds, projBatchWork, hb])).2.2

/-- Witness for C7 at the concrete scenario (batch name "Work" already in
the store). -/
theorem C7_merge_idempotent_on_names_witness :
    (mergeBatch [projWork] [projBatchWork] [taskWriteReport]).2 = [projWork]
    ∧ ∀ t ∈ (mergeBatch [projWork] [projBatchWork] [taskWriteReport]).1,
        ∀ pid, t.project_id = some pid → pid ∈ projIds [projWork] :=
  C7_merge_idempotent_on_names [projWork] [projBatchWork] [taskWriteReport]
    (by decide)
    (by
      intro t ht pid hpid
      rw [List.mem_singleton] at ht
      subst ht
      have hb : pid = "bp1" := by
        have h1 : some "bp1" = some pid := by
          simpa [taskWriteReport, mkGeminiTask] using hpid
        exact (Option.some_inj.mp h1).symm
      simp [projIds, projBatchWork, hb])

/-! ## Claim C3: session index round trip -/

theorem range_token_data (a b : Nat) :
    (pyStr a ++ "-" ++ pyStr b).data = pyChars a ++ '-' :: pyChars b := by
  have hdash : ("-" : String).data = ['-'] := rfl
  simp [pyStr, hdash]

theorem range_token_clean (a b : Nat) :
    ∀ c ∈ (pyStr a ++ "-" ++ pyStr b).data, c ≠ ',' ∧ c.isWhitespace = false := by
  intro c hc
  rw [range_token_data] at hc
  rcases List.mem_append.mp hc with hc | hc
  · exact ⟨pyChars_no_comma a c hc, pyChars_no_ws a c hc⟩
  · rcases List.mem_cons.mp hc with hc | hc
    · subst hc; exact ⟨by decide, by decide⟩
    · exact ⟨pyChars_no_comma b c hc, pyChars_no_ws b c hc⟩

theorem range_token_single (a b : Nat) :
    ((pySplit ',' (pyStr a ++ "-" ++ pyStr b)).map pyStrip) = [pyStr a ++ "-" ++ pyStr b] := by
  rw [pySplit_no_sep ',' _ (fun c hc => (range_token_clean a b c hc).1)]
  simp only [List.map_cons, List.map_nil]
  rw [pyStrip_of_no_ws _ (fun c hc => (range_token_clean a b c hc).2)]

theorem filter_nonDash_id (l : List Char) (h : ∀ c ∈ l, c ≠ '-') :
    l.filter nonDash = l :=
  List.filter_eq_self.mpr (fun c hc => by simpa [nonDash] using h c hc)

theorem range_token_guard (a b : Nat) : dashGuard (pyStr a ++ "-" ++ pyStr b) = true := by
  unfold dashGuard pyContainsChar
  rw [range_token_data]
  have hfil : (pyChars a ++ '-' :: pyChars b).filter nonDash = pyChars a ++ pyChars b := by
    rw [List.filter_append, List.filter_cons]
    rw [filter_nonDash_id (pyChars a) (pyChars_no_dash a),
        filter_nonDash_id (pyChars b) (pyChars_no_dash b)]
    simp [nonDash]
  rw [hfil]
  have h1 : List.contains (pyChars a ++ '-' :: pyChars b) '-' = true := by
    simp [List.contains]
  have h2 : (pyChars a ++ pyChars b).isEmpty = false := by
    simp [List.isEmpty_iff, pyChars_ne_nil]
  have h3 : (pyChars a ++ pyChars b).all Char.isDigit = true := by
    rw [List.all_eq_true]
    intro c hc
    rcases List.mem_append.mp hc with hc | hc
    · exact pyChars_digits a c hc
    · exact pyChars_digits b c hc
  rw [h1, h2, h3]
  rfl

theorem range_token_split (a b : Nat) :
    splitChars '-' (pyStr a ++ "-" ++ pyStr b).data = [pyChars a, pyChars b] := by
  rw [range_token_data]
  exact splitChars_sep_mid '-' (pyChars a) (pyChars b)
    (pyChars_no_dash a) (pyChars_no_dash b)

theorem range_token_not_malformed (a b : Nat) :
    refMalformed (pyStr a ++ "-" ++ pyStr b) = false := by
  unfold refMalformed
  rw [range_token_split]
  simp [List.isEmpty_iff, pyChars_ne_nil]

theorem range_tokenIds (a b : Nat) (m : IndexMap) (tasks : List Task) :
    tokenIds tasks m (pyStr a ++ "-" ++ pyStr b)
      = (List.range' a (b + 1 - a)).filterMap (fun i => lookupIdx m (pyStr i)) := by
  unfold tokenIds
  simp only [range_token_guard, range_token_split, if_true, parseDigits_pyChars]

/-- C3: after a listing displays N tasks, the rebuilt session index maps the
decimal tokens "1".."N" to the displayed identifiers in order — resolving a
single numeric token i yields the i-th displayed id — and a range token
"a-b" with 1 ≤ a ≤ b ≤ N resolves to exactly the set of identifiers that
the single tokens a..b resolve to. -/
theorem C3_session_index_round_trip (displayed : List Task) (a b : Nat)
    (ha : 1 ≤ a) (hab : a ≤ b) (hb : b ≤ displayed.length) :
    (∀ i, 1 ≤ i → i ≤ displayed.length →
      resolve_one (pyStr i) displayed (registerListing displayed)
        = (displayed.map (fun t => t.id)).get? (i - 1))
    ∧ ∃ out, parse_task_refs (pyStr a ++ "-" ++ pyStr b) displayed
          (registerListing displayed) = .ok out
        ∧ ∀ x, x ∈ out.ids ↔ ∃ i, a ≤ i ∧ i ≤ b ∧
            resolve_one (pyStr i) displayed (registerListing displayed) = some x := by
  have hone : ∀ i, 1 ≤ i → i ≤ displayed.length →
      resolve_one (pyStr i) displayed (registerListing displayed)
        = (displayed.map (fun t => t.id)).get? (i - 1) := by
    intro i h1 h2
    have hl := lookupIdx_registerListing displayed i h1 h2
    have hlt : i - 1 < (displayed.map (fun t => t.id)).length := by simp; omega
    unfold resolve_one
    rw [if_pos]
    · exact hl
    · rw [hl, List.get?_eq_get hlt]
      simp [pyIsDigit_pyStr]
  refine ⟨hone, ?_⟩
  have hmal : ∀ r ∈ (pySplit ',' (pyStr a ++ "-" ++ pyStr b)).map pyStrip,
      refMalformed r = false := by
    rw [range_token_single]
    intro r hr
    rw [List.mem_singleton] at hr
    subst hr
    exact range_token_not_malformed a b
  refine ⟨_, parse_task_refs_ok _ displayed _ hmal, ?_⟩
  intro x
  rw [range_token_single]
  simp only [List.map_cons, List.map_nil, List.flatten, List.append_nil]
  rw [List.mem_dedup]
  rw [range_tokenIds a b _ displayed]
  rw [List.mem_filterMap]
  constructor
  · rintro ⟨i, hi, hlk⟩
    have hi' := List.mem_range'_1.mp hi
    have hia : a ≤ i := hi'.1
    have hib : i ≤ b := by omega
    refine ⟨i, hia, hib, ?_⟩
    unfold resolve_one
    rw [if_pos]
    · exact hlk
    · simp [pyIsDigit_pyStr, hlk]
  · rintro ⟨i, hia, hib, hres⟩
    have h1 : 1 ≤ i := le_trans ha hia
    have h2 : i ≤ displayed.length := le_trans hib hb
    have hl := lookupIdx_registerListing displayed i h1 h2
    have hlt : i - 1 < (displayed.map (fun t => t.id)).length := by simp; omega
    have hres' : lookupIdx (registerListing displayed) (pyStr i) = some x := by
      unfold resolve_one at hres
      rw [if_pos] at hres
      · exact hres
      · rw [hl, List.get?_eq_get hlt]
        simp [pyIsDigit_pyStr]
    exact ⟨i, List.mem_range'_1.mpr ⟨hia, by omega⟩, hres'⟩

/-- Witness for C3 on a concrete three-task listing with the range "1-3". -/
theorem C3_session_index_round_trip_witness :
    (∀ i, 1 ≤ i → i ≤ ([taskWriteReport, { taskWriteReport with id := "u2" },
        { taskWriteReport with id := "u3" }] : List Task).length →
      resolve_one (pyStr i) [taskWriteReport, { taskWriteReport with id := "u2" },
          { taskWriteReport with id := "u3" }]
          (registerListing [taskWriteReport, { taskWriteReport with id := "u2" },
            { taskWriteReport with id := "u3" }])
        = (([taskWriteReport, { taskWriteReport with id := "u2" },
            { taskWriteReport with id := "u3" }] : List Task).map (fun t => t.id)).get? (i - 1))
    ∧ ∃ out, parse_task_refs (pyStr 1 ++ "-" ++ pyStr 3)
          [taskWriteReport, { taskWriteReport with id := "u2" },
            { taskWriteReport with id := "u3" }]
          (registerListing [taskWriteReport, { taskWriteReport with id := "u2" },
            { taskWriteReport with id := "u3" }]) = .ok out
        ∧ ∀ x, x ∈ out.ids ↔ ∃ i, 1 ≤ i ∧ i ≤ 3 ∧
            resolve_one (pyStr i) [taskWriteReport, { taskWriteReport with id := "u2" },
                { taskWriteReport with id := "u3" }]
              (registerListing [taskWriteReport, { taskWriteReport with id := "u2" },
                { taskWriteReport with id := "u3" }]) = some x :=
  C3_session_index_round_trip
    [taskWriteReport, { taskWriteReport with id := "u2" },
      { taskWriteReport with id := "u3" }] 1 3
    (by decide) (by decide) (by decide)

/-! ## Claim C5: bulk resolution robustness (corrected) -/

/-- Counterexample to C5 as stated: the malformed dash ranges "1-2-3" and
"-1" are not warned-and-skipped — the uncaught ValueError of the range
branch aborts the whole resolution. -/
theorem C5_counterexample_malformed_range_aborts :
    parse_task_refs "1-2-3" [taskWriteReport] [] = .error ()
    ∧ parse_task_refs "-1" [taskWriteReport] [] = .error () :=
  ⟨rfl, rfl⟩

/-- C5 as amended: on every input whose tokens avoid the malformed-range
shape (dash-guard accepted but not exactly two nonempty digit groups),
bulk resolution terminates normally with a de-duplicated id list, every
unmatched prefix token is reported as a warning and skipped, and processing
continues across tokens; a malformed range token, however, aborts the whole
resolution with an uncaught error. -/
theorem C5_bulk_resolution_amended (s : String) (tasks : List Task) (m : IndexMap)
    (hmal : ∀ r ∈ (pySplit ',' s).map pyStrip, refMalformed r = false) :
    ∃ out, parse_task_refs s tasks m = .ok out
      ∧ out.ids.Nodup
      ∧ out.warns = ((pySplit ',' s).map pyStrip).filter (tokenUnmatched tasks m) := by
  refine ⟨_, parse_task_refs_ok s tasks m hmal, ?_, rfl⟩
  exact List.nodup_dedup _

/-- Witness for the amended C5 on the input "zz,1,zz" against one task with
id "t1" and an empty session index: both "zz" tokens are warned, the
resolution still succeeds. -/
theorem C5_bulk_resolution_amended_witness :
    ∃ out, parse_task_refs "zz,1,zz" [taskWriteReport] [] = .ok out
      ∧ out.ids.Nodup
      ∧ out.warns = ((pySplit ',' "zz,1,zz").map pyStrip).filter
          (tokenUnmatched [taskWriteReport] []) :=
  C5_bulk_resolution_amended "zz,1,zz" [taskWriteReport] [] (by decide)

/-! ## Claim C9: the empty token resolves to the first task -/

/-- C9: on a non-empty task list, an input containing an empty token (e.g.
from a trailing or doubled comma) resolves that token to the first task's
id — every id starts with the empty string — instead of warning, so bulk
operations can silently target a task the user never referenced. -/
theorem C9_empty_token_matches_first_task (s : String) (t : Task) (rest : List Task)
    (m : IndexMap)
    (hmal : ∀ r ∈ (pySplit ',' s).map pyStrip, refMalformed r = false)
    (hempty : "" ∈ (pySplit ',' s).map pyStrip) :
    ∃ out, parse_task_refs s (t :: rest) m = .ok out
      ∧ t.id ∈ out.ids ∧ "" ∉ out.warns := by
  refine ⟨_, parse_task_refs_ok s (t :: rest) m hmal, ?_, ?_⟩
  · rw [List.mem_dedup, List.mem_flatten]
    refine ⟨tokenIds (t :: rest) m "", List.mem_map.mpr ⟨"", hempty, rfl⟩, ?_⟩
    unfold tokenIds
    have hg : dashGuard "" = false := by decide
    have hd : pyIsDigit "" = false := by decide
    rw [hg, hd]
    have hfind : (t :: rest).find? (fun x => pyStartsWith x.id "") = some t := by
      rw [List.find?_cons_of_pos]
      simp [pyStartsWith, List.isPrefixOf]
    simp [hfind]
  · intro hw
    have := List.of_mem_filter hw
    unfold tokenUnmatched at this
    have hfind : ((t :: rest).find? (fun x => pyStartsWith x.id "")).isNone = false := by
      rw [List.find?_cons_of_pos]
      · rfl
      · simp [pyStartsWith, List.isPrefixOf]
    rw [hfind] at this
    simp at this

/-- Witness for C9: the trailing-comma input "2," against a one-task store
with an empty session index. -/
theorem C9_empty_token_matches_first_task_witness :
    ∃ out, parse_task_refs "2," (taskWriteReport :: []) [] = .ok out
      ∧ taskWriteReport.id ∈ out.ids ∧ "" ∉ out.warns :=
  C9_empty_token_matches_first_task "2," taskWriteReport [] [] (by decide) (by decide)

/-! ## Claim C6: store load robustness (corrected) -/

/-- Counterexample to C6 as stated: content that is valid JSON but not an
object — here a top-level array — is not treated as empty; load_data raises
(data.get on a list → AttributeError, caught nowhere since only
JSONDecodeError is handled). -/
theorem C6_counterexample_parsed_array_raises :
    load_data (.parsed (.arr [])) = .error () := rfl

/-- C6 as amended: load never fails when the file is absent or its bytes
are not valid JSON — both yield the empty collections — but content that
parses to JSON that is not a well-formed representation of the collections
raises instead of being treated as empty. -/
theorem C6_load_empty_on_missing_or_unparseable :
    load_data .absent = .ok ([], []) ∧ load_data .unparseable = .ok ([], []) :=
  ⟨rfl, rfl⟩

/-! ## Claim C10: estimated_tomatoes positivity (corrected) -/

/-- Counterexample to C10 as stated: the isdigit() guard of every edit path
accepts "0", setting estimated_tomatoes = 0, and ingest stores whatever
integer the parser handed over (e.g. -3) unchecked; positivity is not an
invariant. -/
theorem C10_counterexample_zero_tomatoes :
    (applyTomatoInput "0" taskWriteReport).estimated_tomatoes = 0
    ∧ ¬(1 ≤ (applyTomatoInput "0" taskWriteReport).estimated_tomatoes)
    ∧ (bulkTomatoInput "0" [taskWriteReport]).map (fun t => t.estimated_tomatoes) = [0]
    ∧ (mkGeminiTask "T" "" (-3) none "i1" "c1").estimated_tomatoes = -3 := by
  refine ⟨rfl, by decide, rfl, rfl⟩

/-- C10 as amended: the edit paths (single edit, review-loop edit, bulk
edit all run the same digit-guarded update) only ever overwrite
estimated_tomatoes with a parsed digit string, hence a non-negative
integer: they preserve estimated_tomatoes ≥ 0.  They do not enforce ≥ 1
("0" is accepted), and ingest parsing stores the model-supplied integer
unchecked. -/
theorem C10_tomato_nonneg_amended (s : String) (t : Task) (ts : List Task)
    (h : 0 ≤ t.estimated_tomatoes) (hts : ∀ u ∈ ts, 0 ≤ u.estimated_tomatoes) :
    0 ≤ (applyTomatoInput s t).estimated_tomatoes
    ∧ ∀ u ∈ bulkTomatoInput s ts, 0 ≤ u.estimated_tomatoes := by
  constructor
  · unfold applyTomatoInput
    by_cases hd : pyIsDigit s = true
    · simp only [hd, if_true]
      exact Int.natCast_nonneg _
    · rw [if_neg hd]
      exact h
  · intro u hu
    unfold bulkTomatoInput at hu
    by_cases hd : pyIsDigit s = true
    · simp only [hd, if_true] at hu
      obtain ⟨u0, _, rfl⟩ := List.mem_map.mp hu
      exact Int.natCast_nonneg _
    · rw [if_neg hd] at hu
      exact hts u hu

/-- Witness for the amended C10 at the input "0" on the concrete task. -/
theorem C10_tomato_nonneg_amended_witness :
    0 ≤ (applyTomatoInput "0" taskWriteReport).estimated_tomatoes
    ∧ ∀ u ∈ bulkTomatoInput "0" [taskWriteReport], 0 ≤ u.estimated_tomatoes :=
  C10_tomato_nonneg_amended "0" taskWriteReport [taskWriteReport] (by decide)
    (by decide)

/-! ## Claim C4: the deadline field (code bug) -/

/-- C4: models.Task declares no deadline field at all, while the spec gives
every Task an optional deadline and main.py reads t.deadline throughout
(listing sort key, due filter, review display) and edit paths assign it.
A Task fresh from ingest therefore has no such attribute: every read
raises AttributeError, and the to_dict/from_dict pair drops an assigned
deadline (asdict serializes declared fields only) and rejects a stored
"deadline" key (unexpected keyword argument).  The claim's reads are
evaluated at the failing input, a task fresh from ingest. -/
theorem C4_deadline_missing_field :
    taskWriteReport.getDeadline = .error ()
    ∧ sort_key (buildNameProj [projWork]) taskWriteReport = .error ()
    ∧ filter_tasks (fun _ => some 0) [taskWriteReport] [projWork] none (some 7) none
        = .error ()
    ∧ renderDraft { newTasks := [taskWriteReport], finalProjects := [projWork] }
        = .error ()
    ∧ task_from_dict (task_to_dict { taskWriteReport with deadline := some (some "2025-12-31") })
        = .ok taskWriteReport
    ∧ task_from_dict (.obj (("deadline", .str "2025-12-31") ::
        [ ("title", .str "Write report"), ("id", .str "t1")
        , ("created_at", .str "2025-01-02T00:00:00") ])) = .error () :=
  ⟨rfl, rfl, rfl, rfl, rfl, rfl⟩

/-! ## Claim C8: archive partition -/

theorem shouldArchive_done {days : Nat} {oracle : String → Option Bool} {t : Task}
    (h : shouldArchive days oracle t = true) : t.status = TaskStatus.done := by
  unfold shouldArchive at h
  rw [Bool.and_eq_true] at h
  exact of_decide_eq_true h.1

/-- C8: archiving selects only done tasks (all of them at the default
days = 0); afterwards the active task list is the prior list minus the
selected set with projects untouched, the archive list is its prior content
plus the selected set (id-for-id), no task id is in both sides when the
stores were disjoint, and the archive append itself never writes the active
collections. -/
theorem C8_archive_partition (fs : FileSys) (days : Nat)
    (completedBeforeCutoff : String → Option Bool)
    (hdisj : ∀ i, i ∈ fs.active.tasks.map (fun t => t.id) →
        i ∉ fs.archive.tasks.map (fun t => t.id))
    (hnodup : (fs.active.tasks.map (fun t => t.id)).Nodup) :
    (∀ t ∈ fs.active.tasks.filter (shouldArchive days completedBeforeCutoff),
        t.status = TaskStatus.done)
    ∧ (archiveCmd days completedBeforeCutoff fs).active.tasks
        = fs.active.tasks.filter (fun t => !(shouldArchive days completedBeforeCutoff t))
    ∧ (archiveCmd days completedBeforeCutoff fs).active.projects = fs.active.projects
    ∧ (archiveCmd days completedBeforeCutoff fs).archive.tasks
        = fs.archive.tasks ++
          (fs.active.tasks.filter (shouldArchive days completedBeforeCutoff)).map setArchived
    ∧ (archiveCmd days completedBeforeCutoff fs).archive.tasks.map (fun t => t.id)
        = fs.archive.tasks.map (fun t => t.id) ++
          (fs.active.tasks.filter (shouldArchive days completedBeforeCutoff)).map
            (fun t => t.id)
    ∧ (archiveCmd days completedBeforeCutoff fs).archive.projects = fs.archive.projects
    ∧ (∀ i, i ∈ (archiveCmd days completedBeforeCutoff fs).active.tasks.map (fun t => t.id) →
        i ∉ (archiveCmd days completedBeforeCutoff fs).archive.tasks.map (fun t => t.id))
    ∧ (∀ (g : FileSys) (l : List Task), (append_to_archive g l).active = g.active) := by
  have hframe : ∀ (g : FileSys) (l : List Task), (append_to_archive g l).active = g.active :=
    fun g l => rfl
  have hsel : ∀ t ∈ fs.active.tasks.filter (shouldArchive days completedBeforeCutoff),
      t.status = TaskStatus.done :=
    fun t ht => shouldArchive_done (List.of_mem_filter ht)
  have hidmap : ((fs.active.tasks.filter (shouldArchive days completedBeforeCutoff)).map
        setArchived).map (fun t => t.id)
      = (fs.active.tasks.filter (shouldArchive days completedBeforeCutoff)).map
        (fun t => t.id) := by
    rw [List.map_map]
    rfl
  by_cases hE : ((fs.active.tasks.filter (shouldArchive days completedBeforeCutoff)).map
      setArchived).isEmpty = true
  · have hfe : fs.active.tasks.filter (shouldArchive days completedBeforeCutoff) = [] := by
      rw [List.isEmpty_iff] at hE
      simpa using hE
    have hcmd : archiveCmd days completedBeforeCutoff fs = fs := by
      unfold archiveCmd
      rw [if_pos hE]
    have hnone : ∀ t ∈ fs.active.tasks, shouldArchive days completedBeforeCutoff t = false := by
      intro t ht
      have := List.filter_eq_nil_iff.mp hfe t ht
      simpa using this
    rw [hcmd]
    refine ⟨hsel, ?_, rfl, ?_, ?_, rfl, ?_, hframe⟩
    · rw [List.filter_eq_self.mpr (fun t ht => by simp [hnone t ht])]
    · rw [hfe]; simp
    · rw [hfe]; simp
    · intro i hi
      exact hdisj i hi
  · have hcmd : archiveCmd days completedBeforeCutoff fs
        = append_to_archive
            { fs with active :=
                { tasks := fs.active.tasks.filter
                    (fun t => !(shouldArchive days completedBeforeCutoff t))
                  projects := fs.active.projects } }
            ((fs.active.tasks.filter (shouldArchive days completedBeforeCutoff)).map
              setArchived) := by
      unfold archiveCmd
      rw [if_neg hE]
    rw [hcmd]
    refine ⟨hsel, rfl, rfl, rfl, ?_, rfl, ?_, hframe⟩
    · show (fs.archive.tasks ++ _).map (fun t => t.id) = _
      rw [List.map_append, hidmap]
    · intro i hi hmem0
      have hmem : i ∈ (fs.archive.tasks ++
          ((fs.active.tasks.filter (shouldArchive days completedBeforeCutoff)).map
            setArchived)).map (fun t => t.id) := hmem0
      rw [List.map_append, List.mem_append, hidmap] at hmem
      obtain ⟨t, ht, rfl⟩ := List.mem_map.mp hi
      have htl : t ∈ fs.active.tasks := List.mem_of_mem_filter ht
      have htsel : shouldArchive days completedBeforeCutoff t = false := by
        have := List.of_mem_filter ht
        simpa using this
      rcases hmem with hmem | hmem
      · exact hdisj t.id (List.mem_map.mpr ⟨t, htl, rfl⟩) hmem
      · obtain ⟨u, hu, hui⟩ := List.mem_map.mp hmem
        have hul : u ∈ fs.active.tasks := List.mem_of_mem_filter hu
        have husel := List.of_mem_filter hu
        have : u = t := List.inj_on_of_nodup_map hnodup hul htl hui
        rw [this, htsel] at husel
        exact Bool.false_ne_true husel

/-- Tasks and file-system state for the C8 witness. -/
def c8TaskDone : Task := { taskWriteReport with status := TaskStatus.done }

def c8Task2 : Task := { taskWriteReport with id := "t2" }

def c8Task9 : Task := { taskWriteReport with id := "t9" }

def c8FS : FileSys :=
  { active := { tasks := [c8TaskDone, c8Task2], projects := [projWork] }
    archive := { tasks := [c8Task9], projects := [] } }

/-- Witness for C8: a two-task store (one done, one todo) with one
previously archived task, at the default days = 0. -/
theorem C8_archive_partition_witness :
    (∀ t ∈ c8FS.active.tasks.filter (shouldArchive 0 (fun _ => none)),
        t.status = TaskStatus.done)
    ∧ (archiveCmd 0 (fun _ => none) c8FS).active.tasks
        = c8FS.active.tasks.filter (fun t => !(shouldArchive 0 (fun _ => none) t))
    ∧ (archiveCmd 0 (fun _ => none) c8FS).active.projects = c8FS.active.projects
    ∧ (archiveCmd 0 (fun _ => none) c8FS).archive.tasks
        = c8FS.archive.tasks ++
          (c8FS.active.tasks.filter (shouldArchive 0 (fun _ => none))).map setArchived
    ∧ (archiveCmd 0 (fun _ => none) c8FS).archive.tasks.map (fun t => t.id)
        = c8FS.archive.tasks.map (fun t => t.id) ++
          (c8FS.active.tasks.filter (shouldArchive 0 (fun _ => none))).map (fun t => t.id)
    ∧ (archiveCmd 0 (fun _ => none) c8FS).archive.projects = c8FS.archive.projects
    ∧ (∀ i, i ∈ (archiveCmd 0 (fun _ => none) c8FS).active.tasks.map (fun t => t.id) →
        i ∉ (archiveCmd 0 (fun _ => none) c8FS).archive.tasks.map (fun t => t.id))
    ∧ (∀ (g : FileSys) (l : List Task), (append_to_archive g l).active = g.active) :=
  C8_archive_partition c8FS 0 (fun _ => none) (by decide) (by decide)

/-! ## Claim C2: review session write discipline -/

/-- Sub-actions of the review loop: everything except Save and Discard. -/
def ReviewAction.isSub : ReviewAction → Bool
  | .save => false
  | .discard => false
  | _ => true

/-- Every draft task carries the deadline attribute (the condition under
which the loop's renders and edits never raise). -/
def allDeadlinesPresent (st : ReviewState) : Prop :=
  ∀ t ∈ st.newTasks, (t.deadline).isSome

/-- The pure state transformer of one sub-action (error cases of applyEdit
cannot occur when every deadline attribute is present). -/
def stepReview (st : ReviewState) : ReviewAction → ReviewState
  | .edit n inp =>
    match applyEdit st n inp with
    | .ok st' => st'
    | .error _ => st
  | .mergeProj s d => applyMergeProj st s d
  | _ => st

def foldReview (st : ReviewState) (acts : List ReviewAction) : ReviewState :=
  acts.foldl stepReview st

theorem Task.getDeadline_some {t : Task} {d : Option String} (h : t.deadline = some d) :
    t.getDeadline = .ok d := by
  unfold Task.getDeadline
  rw [h]

theorem renderDraft_ok {st : ReviewState} (h : allDeadlinesPresent st) :
    renderDraft st = .ok () := by
  unfold renderDraft
  have : ∀ (l : List Task), (∀ t ∈ l, (t.deadline).isSome) → ∀ u : Unit,
      l.foldlM (fun _ t => do
        let _ ← t.getDeadline
        Except.ok ()) u = .ok () := by
    intro l
    induction l with
    | nil => intro _ u; rfl
    | cons t rest ih =>
      intro hl u
      obtain ⟨d, hd⟩ := Option.isSome_iff_exists.mp (hl t (List.mem_cons_self t rest))
      rw [List.foldlM_cons]
      have hstep : (do
          let _ ← t.getDeadline
          Except.ok ()) = (Except.ok () : Except Unit Unit) := by
        rw [Task.getDeadline_some hd]
        rfl
      rw [hstep]
      exact ih (fun x hx => hl x (List.mem_cons_of_mem t hx)) ()
  exact this st.newTasks h ()

theorem applyTomatoInput_deadline (s : String) (t : Task) :
    (applyTomatoInput s t).deadline = t.deadline := by
  unfold applyTomatoInput
  split <;> rfl

theorem applyEdit_ok {st : ReviewState} (n : Int) (inp : EditInput)
    (h : allDeadlinesPresent st) :
    ∃ st', applyEdit st n inp = .ok st'
      ∧ allDeadlinesPresent st'
      ∧ ∃ e, st'.finalProjects = st.finalProjects ++ e := by
  have hset : ∀ (idx : Nat) (task : Task), (task.deadline).isSome →
      ∀ t ∈ st.newTasks.set idx task, (t.deadline).isSome := by
    intro idx task htask t ht
    rcases List.mem_or_eq_of_mem_set ht with ht | ht
    · exact h t ht
    · exact ht ▸ htask
  unfold applyEdit
  by_cases hneg : n - 1 < 0
  · rw [if_pos hneg]
    exact ⟨st, rfl, h, [], by simp⟩
  · rw [if_neg hneg]
    rcases hget : st.newTasks.get? (n - 1).toNat with _ | task0
    · exact ⟨st, rfl, h, [], by simp⟩
    · have htask0 : task0 ∈ st.newTasks := List.get?_mem hget
      obtain ⟨d, hd⟩ := Option.isSome_iff_exists.mp (h task0 htask0)
      have hd2 : (applyTomatoInput inp.tomatoes { task0 with title := inp.title }).deadline
          = some d := by
        rw [applyTomatoInput_deadline]
        exact hd
      try dsimp only
      rw [hd2]
      try dsimp only
      rcases hfind : st.finalProjects.find? (fun p => p.name = inp.projectName)
        with _ | found_p
      · rw [hfind]
        try dsimp only
        by_cases hconf : inp.confirmCreate = true
        · rw [if_pos hconf]
          refine ⟨_, rfl, ?_, [_], rfl⟩
          exact hset _ _ rfl
        · rw [if_neg hconf]
          refine ⟨_, rfl, ?_, [], by simp⟩
          exact hset _ _ rfl
      · rw [hfind]
        try dsimp only
        refine ⟨_, rfl, ?_, [], by simp⟩
        exact hset _ _ rfl

theorem applyMergeProj_projects (st : ReviewState) (s d : Int) :
    (applyMergeProj st s d).finalProjects = st.finalProjects := by
  unfold applyMergeProj
  split
  · rfl
  · split
    · split
      · rfl
      · rfl
    · rfl

theorem applyMergeProj_deadlines {st : ReviewState} (s d : Int)
    (h : allDeadlinesPresent st) : allDeadlinesPresent (applyMergeProj st s d) := by
  unfold applyMergeProj
  split
  · exact h
  · split
    · split
      · intro t ht
        simp only at ht
        obtain ⟨t0, ht0, rfl⟩ := List.mem_map.mp ht
        have := h t0 ht0
        split <;> simpa using this
      · exact h
    · exact h

theorem runReview_nil_eq (ex : List Task) (st : ReviewState) :
    runReview ex st [] =
      (match renderDraft st with
       | .error _ => { writes := [], outcome := .aborted }
       | .ok _ => { writes := [], outcome := .reviewing st }) := rfl

theorem runReview_cons_eq (ex : List Task) (st : ReviewState) (a : ReviewAction)
    (rest : List ReviewAction) :
    runReview ex st (a :: rest) =
      (match renderDraft st with
       | .error _ => { writes := [], outcome := .aborted }
       | .ok _ =>
         match a with
         | .save =>
           { writes := [{ tasks := ex ++ st.newTasks, projects := st.finalProjects }]
             outcome := .saved }
         | .discard => { writes := [], outcome := .discarded }
         | .edit n inp =>
           match applyEdit st n inp with
           | .ok st' => runReview ex st' rest
           | .error _ => { writes := [], outcome := .aborted }
         | .mergeProj s d => runReview ex (applyMergeProj st s d) rest
         | .unknown => runReview ex st rest) := rfl

theorem runReview_nil (ex : List Task) (st : ReviewState) (hr : renderDraft st = .ok ()) :
    runReview ex st [] = { writes := [], outcome := .reviewing st } := by
  rw [runReview_nil_eq, hr]

theorem runReview_cons_save (ex : List Task) (st : ReviewState) (rest : List ReviewAction)
    (hr : renderDraft st = .ok ()) :
    runReview ex st (.save :: rest)
      = { writes := [{ tasks := ex ++ st.newTasks, projects := st.finalProjects }]
          outcome := .saved } := by
  rw [runReview_cons_eq, hr]

theorem runReview_cons_discard (ex : List Task) (st : ReviewState) (rest : List ReviewAction)
    (hr : renderDraft st = .ok ()) :
    runReview ex st (.discard :: rest) = { writes := [], outcome := .discarded } := by
  rw [runReview_cons_eq, hr]

theorem runReview_cons_edit (ex : List Task) (st st' : ReviewState) (n : Int)
    (inp : EditInput) (rest : List ReviewAction)
    (hr : renderDraft st = .ok ()) (hok : applyEdit st n inp = .ok st') :
    runReview ex st (.edit n inp :: rest) = runReview ex st' rest := by
  rw [runReview_cons_eq, hr]
  try dsimp only
  rw [hok]

theorem runReview_cons_mergeProj (ex : List Task) (st : ReviewState) (s d : Int)
    (rest : List ReviewAction) (hr : renderDraft st = .ok ()) :
    runReview ex st (.mergeProj s d :: rest)
      = runReview ex (applyMergeProj st s d) rest := by
  rw [runReview_cons_eq, hr]

theorem runReview_cons_unknown (ex : List Task) (st : ReviewState)
    (rest : List ReviewAction) (hr : renderDraft st = .ok ()) :
    runReview ex st (.unknown :: rest) = runReview ex st rest := by
  rw [runReview_cons_eq, hr]

/-- Running any script of Edit / Merge-Projects / unrecognized sub-actions
performs no store write and only folds the in-memory state; appending Save
performs exactly the one write (existing tasks + final batch tasks, final
working projects); appending Discard writes nothing. -/
theorem runReview_script (existing_tasks : List Task) (pre : List ReviewAction) :
    ∀ st : ReviewState, (∀ a ∈ pre, a.isSub = true) → allDeadlinesPresent st →
      allDeadlinesPresent (foldReview st pre)
      ∧ (∃ e, (foldReview st pre).finalProjects = st.finalProjects ++ e)
      ∧ runReview existing_tasks st pre
          = { writes := [], outcome := .reviewing (foldReview st pre) }
      ∧ runReview existing_tasks st (pre ++ [.save])
          = { writes := [{ tasks := existing_tasks ++ (foldReview st pre).newTasks
                           projects := (foldReview st pre).finalProjects }]
              outcome := .saved }
      ∧ runReview existing_tasks st (pre ++ [.discard])
          = { writes := [], outcome := .discarded } := by
  induction pre with
  | nil =>
    intro st _ hdl
    have hr := renderDraft_ok hdl
    have hfold : foldReview st [] = st := rfl
    rw [hfold]
    refine ⟨hdl, ⟨[], by simp⟩, runReview_nil _ _ hr, ?_, ?_⟩
    · show runReview existing_tasks st (.save :: []) = _
      rw [runReview_cons_save _ _ _ hr]
    · show runReview existing_tasks st (.discard :: []) = _
      rw [runReview_cons_discard _ _ _ hr]
  | cons a rest ih =>
    intro st hsub hdl
    have hr := renderDraft_ok hdl
    have hsubr : ∀ x ∈ rest, x.isSub = true :=
      fun x hx => hsub x (List.mem_cons_of_mem a hx)
    have hcons : ∀ b : ReviewAction, (a :: rest) ++ [b] = a :: (rest ++ [b]) := fun _ => rfl
    cases a with
    | save =>
      have := hsub .save (List.mem_cons_self _ rest)
      simp [ReviewAction.isSub] at this
    | discard =>
      have := hsub .discard (List.mem_cons_self _ rest)
      simp [ReviewAction.isSub] at this
    | edit n inp =>
      obtain ⟨st', hok, hdl', e1, he1⟩ := applyEdit_ok n inp hdl
      have hstep : stepReview st (.edit n inp) = st' := by
        show (match applyEdit st n inp with
              | .ok s => s
              | .error _ => st) = st'
        rw [hok]
      have hfold : foldReview st (.edit n inp :: rest) = foldReview st' rest := by
        unfold foldReview
        rw [List.foldl_cons, hstep]
      obtain ⟨ih1, ⟨e2, he2⟩, ih3, ih4, ih5⟩ := ih st' hsubr hdl'
      rw [hfold]
      refine ⟨ih1, ⟨e1 ++ e2, by rw [he2, he1, List.append_assoc]⟩, ?_, ?_, ?_⟩
      · rw [runReview_cons_edit _ _ _ _ _ _ hr hok, ih3]
      · rw [hcons, runReview_cons_edit _ _ _ _ _ _ hr hok, ih4]
      · rw [hcons, runReview_cons_edit _ _ _ _ _ _ hr hok, ih5]
    | mergeProj s d =>
      have hdl' := applyMergeProj_deadlines s d hdl
      have hstep : stepReview st (.mergeProj s d) = applyMergeProj st s d := rfl
      have hfold : foldReview st (.mergeProj s d :: rest)
          = foldReview (applyMergeProj st s d) rest := by
        unfold foldReview
        rw [List.foldl_cons, hstep]
      obtain ⟨ih1, ⟨e2, he2⟩, ih3, ih4, ih5⟩ := ih (applyMergeProj st s d) hsubr hdl'
      rw [hfold]
      refine ⟨ih1, ⟨e2, by rw [he2, applyMergeProj_projects]⟩, ?_, ?_, ?_⟩
      · rw [runReview_cons_mergeProj _ _ _ _ _ hr, ih3]
      · rw [hcons, runReview_cons_mergeProj _ _ _ _ _ hr, ih4]
      · rw [hcons, runReview_cons_mergeProj _ _ _ _ _ hr, ih5]
    | unknown =>
      have hfold : foldReview st (.unknown :: rest) = foldReview st rest := rfl
      obtain ⟨ih1, ⟨e2, he2⟩, ih3, ih4, ih5⟩ := ih st hsubr hdl
      rw [hfold]
      refine ⟨ih1, ⟨e2, he2⟩, ?_, ?_, ?_⟩
      · rw [runReview_cons_unknown _ _ _ hr, ih3]
      · rw [hcons, runReview_cons_unknown _ _ _ hr, ih4]
      · rw [hcons, runReview_cons_unknown _ _ _ hr, ih5]

theorem remapTask_deadline (idMap : String → Option String) (t : Task) :
    (remapTask idMap t).deadline = t.deadline := by
  unfold remapTask
  rcases t.project_id with _ | pid
  · rfl
  · dsimp only
    rcases hm : idMap pid with _ | nid
    · simp [hm]
    · simp [hm]

/-- C2: over a merged batch, the Review Session writes the store only
through Save — the single write being exactly the prior tasks concatenated
with the (possibly edited) batch tasks and the prior projects extended by
the deduplicated, possibly edit-extended batch projects — terminating with
success; Discard terminates without a write, leaving the persisted store
unchanged; and no Edit or Merge-Projects sub-action performs a write. -/
theorem C2_review_session_write_discipline
    (existing_tasks : List Task) (existing_projects new_projects : List Project)
    (new_tasks : List Task) (pre : List ReviewAction)
    (hsub : ∀ a ∈ pre, a.isSub = true)
    (hdl : ∀ t ∈ new_tasks, (t.deadline).isSome) :
    runReview existing_tasks (reviewInit existing_projects new_projects new_tasks)
        (pre ++ [.save])
      = { writes := [{
            tasks := existing_tasks ++
              (foldReview (reviewInit existing_projects new_projects new_tasks) pre).newTasks,
            projects :=
              (foldReview (reviewInit existing_projects new_projects
                new_tasks) pre).finalProjects }],
          outcome := .saved }
    ∧ (∃ ext, (foldReview (reviewInit existing_projects new_projects new_tasks)
          pre).finalProjects = existing_projects ++ ext)
    ∧ runReview existing_tasks (reviewInit existing_projects new_projects new_tasks)
        (pre ++ [.discard]) = { writes := [], outcome := .discarded }
    ∧ (∀ init : Store, finalStore init
        (runReview existing_tasks (reviewInit existing_projects new_projects new_tasks)
          (pre ++ [.discard])).writes = init)
    ∧ runReview existing_tasks (reviewInit existing_projects new_projects new_tasks) pre
      = { writes := []
          outcome := .reviewing
            (foldReview (reviewInit existing_projects new_projects new_tasks) pre) } := by
  have hdl0 : allDeadlinesPresent (reviewInit existing_projects new_projects new_tasks) := by
    intro t ht
    unfold reviewInit mergeBatch at ht
    simp only at ht
    obtain ⟨t0, ht0, rfl⟩ := List.mem_map.mp ht
    rw [remapTask_deadline]
    exact hdl t0 ht0
  obtain ⟨_, ⟨e2, he2⟩, h3, h4, h5⟩ :=
    runReview_script existing_tasks pre
      (reviewInit existing_projects new_projects new_tasks) hsub hdl0
  obtain ⟨kept, hkept, _⟩ := (mergeProjects_inv existing_projects new_projects).kept
  have hinitp : (reviewInit existing_projects new_projects new_tasks).finalProjects
      = existing_projects ++ kept := by
    unfold reviewInit mergeBatch
    exact hkept
  refine ⟨h4, ⟨kept ++ e2, by rw [he2, hinitp, List.append_assoc]⟩, h5, ?_, h3⟩
  intro init
  rw [h5]
  rfl

/-- Draft tasks for the C2 witness: batch tasks whose deadline attribute is
present (as after any completed edit), so the review renders cleanly. -/
def c2Task : Task := { taskWriteReport with deadline := some none }

/-- Witness for C2: one edit then save / discard over the concrete merged
batch. -/
theorem C2_review_session_write_discipline_witness :
    runReview [] (reviewInit [projWork] [projBatchWork] [c2Task])
        ([.unknown] ++ [.save])
      = { writes := [{
            tasks := [] ++
              (foldReview (reviewInit [projWork] [projBatchWork] [c2Task]) [.unknown]).newTasks,
            projects :=
              (foldReview (reviewInit [projWork] [projBatchWork]
                [c2Task]) [.unknown]).finalProjects }],
          outcome := .saved }
    ∧ (∃ ext, (foldReview (reviewInit [projWork] [projBatchWork] [c2Task])
          [.unknown]).finalProjects = [projWork] ++ ext)
    ∧ runReview [] (reviewInit [projWork] [projBatchWork] [c2Task])
        ([.unknown] ++ [.discard]) = { writes := [], outcome := .discarded }
    ∧ (∀ init : Store, finalStore init
        (runReview [] (reviewInit [projWork] [projBatchWork] [c2Task])
          ([.unknown] ++ [.discard])).writes = init)
    ∧ runReview [] (reviewInit [projWork] [projBatchWork] [c2Task]) [.unknown]
      = { writes := []
          outcome := .reviewing
            (foldReview (reviewInit [projWork] [projBatchWork] [c2Task]) [.unknown]) } :=
  C2_review_session_write_discipline [] [projWork] [projBatchWork] [c2Task] [.unknown]
    (by decide) (by decide)

end Pomodoro
